import Mathlib

/-
  Verification development for the Pokemon-GRAAD-Charting pipeline
  (scripts/update.js).  The JavaScript source is shallowly embedded:
  pure functions become Lean functions over `List Char` / `String`,
  JS regular-expression matching is implemented by dedicated scanners
  that mirror the leftmost-match / greedy-with-backtracking semantics
  of each concrete pattern, and the stateful pipeline phases become
  pure state-passing functions.
-/

set_option maxHeartbeats 1000000
set_option maxRecDepth 8192

/-! ## Character classes (JS regex and string semantics) -/

/-- JS regex word character class: `[A-Za-z0-9_]`. -/
def isWordChar (c : Char) : Bool :=
  (('a' ≤ c) && (c ≤ 'z')) || (('A' ≤ c) && (c ≤ 'Z')) ||
  (('0' ≤ c) && (c ≤ '9')) || (c == '_')

/-- JS regex digit class `[0-9]`. -/
def isDigitCh (c : Char) : Bool := ('0' ≤ c) && (c ≤ '9')

/-- JS regex whitespace class (also the set trimmed by
`String.prototype.trim`): U+0009..U+000D, space, NBSP, ogham space mark,
U+2000..U+200A, line/paragraph separator, narrow NBSP, medium
mathematical space, ideographic space, BOM. -/
def isJsSpace (c : Char) : Bool :=
  (('\u0009' ≤ c) && (c ≤ '\u000d')) || (c == ' ') || (c == '\u00a0') ||
  (c == '\u1680') || (('\u2000' ≤ c) && (c ≤ '\u200a')) || (c == '\u2028') ||
  (c == '\u2029') || (c == '\u202f') || (c == '\u205f') || (c == '\u3000') ||
  (c == '\ufeff')

/-- The combining-mark range U+0300..U+036F removed by `norm`. -/
def isCombiningMark (c : Char) : Bool := ('\u0300' ≤ c) && (c ≤ '\u036f')

/-- Fragment of `String.prototype.toLowerCase`: the ASCII mapping plus
the precomposed Latin capitals used in this development
(U+00C9 E-acute → U+00E9, U+00C0 A-grave → U+00E0).  Characters without
a Unicode lowercase mapping (e.g. U+2116 NUMERO SIGN, whose
General_Category is So) are left unchanged, exactly as in JS. -/
def charLower (c : Char) : Char :=
  if ('A' ≤ c) && (c ≤ 'Z') then Char.ofNat (c.toNat + 32)
  else if c == 'É' then 'é'
  else if c == 'À' then 'à'
  else c

/-- Fragment of the Unicode NFKD decomposition used by
`String.prototype.normalize("NFKD")`, per UnicodeData.txt:
U+00E9 e-acute → 0065 0301, U+00E0 a-grave → 0061 0300,
U+2116 NUMERO SIGN → <compat> 004E 006F (capital N, small o).
All other characters of this fragment are their own decomposition. -/
def nfkdChar (c : Char) : List Char :=
  if c == 'é' then ['e', '\u0301']
  else if c == 'à' then ['a', '\u0300']
  else if c == '\u2116' then ['N', 'o']
  else [c]

/-! ## List/string helpers -/

/-- `s.startsWith(p)` via the underlying character lists. -/
def strStartsWith (s p : String) : Bool := p.data.isPrefixOf s.data

/-- `hay.includes(sub)` on character lists. -/
def containsSub (hay sub : List Char) : Bool :=
  match hay with
  | [] => sub.isEmpty
  | c :: rest => sub.isPrefixOf (c :: rest) || containsSub rest sub

/-! ## The text normalizer `norm` (update.js lines 39-47)

`norm(s)` lowercases, applies NFKD, removes the combining marks
U+0300..U+036F, replaces every whitespace run by one space, and trims. -/

/-- The `/\s+/g → " "` replacement: each maximal run of whitespace becomes
a single space.  The boolean argument records whether we are inside a run. -/
def collapseWsAux : Bool → List Char → List Char
  | _, [] => []
  | true, c :: cs =>
    if isJsSpace c then collapseWsAux true cs else c :: collapseWsAux false cs
  | false, c :: cs =>
    if isJsSpace c then ' ' :: collapseWsAux true cs else c :: collapseWsAux false cs

/-- Drop trailing JS whitespace (the right half of `.trim()`). -/
def dropTrailingWs (l : List Char) : List Char :=
  ((l.reverse).dropWhile isJsSpace).reverse

/-- `.trim()`: drop leading and trailing JS whitespace. -/
def trimWs (l : List Char) : List Char :=
  dropTrailingWs (l.dropWhile isJsSpace)

/-- `norm` on character lists: lowercase, NFKD, drop combining marks,
collapse whitespace runs, trim. -/
def normL (l : List Char) : List Char :=
  trimWs (collapseWsAux false
    (((l.map charLower).flatMap nfkdChar).filter (fun c => !(isCombiningMark c))))

/-- `norm` on strings (a `null` argument yields `""` in JS; Lean callers
always pass a string). -/
def normStr (s : String) : String := String.mk (normL s.data)

example : normStr "  HÉllo   WÀrld " = "hello warld" := by decide
example : normStr "№" = "No" := by decide
example : normStr (normStr "№") = "no" := by decide

/-! ## Generic leftmost-match scanner

A JS regex match tries the pattern at index 0, 1, ... and returns the
first success.  `scanFirst f prev l` applies the per-position matcher
`f` (which receives the previous character for word-boundary tests and
the remaining input) at every position of `l` in order.  None of the
patterns in update.js can match the empty string, so the position at the
very end of the input never matters. -/

def scanFirst {α : Type} (f : Option Char → List Char → Option α) :
    Option Char → List Char → Option α
  | _, [] => none
  | prev, c :: rest =>
    match f prev (c :: rest) with
    | some r => some r
    | none => scanFirst f (some c) rest

/-- There is no word character just before the current position. -/
def noWordBefore : Option Char → Bool
  | none => true
  | some p => !isWordChar p

/-- There is no word character at the current position. -/
def noWordAt : List Char → Bool
  | [] => true
  | d :: _ => !isWordChar d

/-- JS word boundary at a position: exactly one of the neighbouring
characters (out-of-string counting as non-word) is a word character. -/
def boundaryAt (prev : Option Char) (l : List Char) : Bool :=
  match prev, l with
  | none, [] => false
  | none, c :: _ => isWordChar c
  | some p, [] => isWordChar p
  | some p, c :: _ => (isWordChar p) != (isWordChar c)

/-- Matcher for a word-delimited literal token (the literal must start and
end with a word character, which holds for every token tested in
update.js). -/
def wordTokenAt (w : List Char) (prev : Option Char) (l : List Char) : Option Unit :=
  if noWordBefore prev && w.isPrefixOf l && noWordAt (l.drop w.length) then some () else none

/-- Regex test for a word-delimited literal token. -/
def hasWordToken (w : List Char) (t : List Char) : Bool :=
  (scanFirst (wordTokenAt w) none t).isSome

/-! ## Title parser (update.js lines 978-1062) -/

/-- Matcher for the lot pattern: digits, optional whitespace, then the
literal cards or carte, all word-delimited. -/
def numCardsAt (prev : Option Char) (l : List Char) : Option Unit :=
  if noWordBefore prev then
    let ds := l.takeWhile isDigitCh
    if ds.isEmpty then none
    else
      let rest := (l.drop ds.length).dropWhile isJsSpace
      if ("cards".data.isPrefixOf rest && noWordAt (rest.drop 5)) ||
         ("carte".data.isPrefixOf rest && noWordAt (rest.drop 5)) then some () else none
  else none

/-- `isLikelyLot` (lines 978-988): any of the lot/bundle/playset/choose/
seleziona tokens, or a count-of-cards pattern, in the normalized title. -/
def isLikelyLot (title : String) : Bool :=
  let t := (normStr title).data
  hasWordToken "lot".data t || hasWordToken "bundle".data t ||
  hasWordToken "playset".data t || hasWordToken "choose".data t ||
  hasWordToken "seleziona".data t || (scanFirst numCardsAt none t).isSome

/-- `detectLangFromTitle` (lines 997-1002). -/
def detectLangFromTitle (title : String) : Option String :=
  let t := (normStr title).data
  if hasWordToken "jap".data t || hasWordToken "jpn".data t ||
     hasWordToken "jp".data t || hasWordToken "giapponese".data t then some "ja"
  else if hasWordToken "eng".data t || hasWordToken "english".data t ||
     hasWordToken "en".data t || hasWordToken "inglese".data t then some "en"
  else none

def isLowerAlpha (c : Char) : Bool := ('a' ≤ c) && (c ≤ 'z')

def isUpperAlpha (c : Char) : Bool := ('A' ≤ c) && (c ≤ 'Z')

/-- After the digits of an sv-code: an optional lowercase letter, then a
word boundary.  Greedy: first try to take the letter.  Returns the
characters consumed. -/
def optLetterThenBoundary (after : List Char) : Option (List Char) :=
  match after with
  | c :: more =>
    if isLowerAlpha c && noWordAt more then some [c]
    else if !(isWordChar c) then some []
    else none
  | [] => some []

/-- The sv-alternative of the set-code pattern: sv, one or two digits
(greedy), an optional lowercase letter, then a word boundary. -/
def svBranchAt (l : List Char) : Option (List Char) :=
  match l with
  | 's' :: 'v' :: rest =>
    let ds := rest.takeWhile isDigitCh
    let with2 : Option (List Char) :=
      if 2 ≤ ds.length then
        match optLetterThenBoundary (rest.drop 2) with
        | some tail => some ('s' :: 'v' :: (rest.take 2 ++ tail))
        | none => none
      else none
    match with2 with
    | some r => some r
    | none =>
      if 1 ≤ ds.length then
        match optLetterThenBoundary (rest.drop 1) with
        | some tail => some ('s' :: 'v' :: (rest.take 1 ++ tail))
        | none => none
      else none
  | _ => none

/-- The m-alternative of the set-code pattern: m then one to three
lowercase letters (greedy), then a word boundary. -/
def mBranchAt (l : List Char) : Option (List Char) :=
  match l with
  | 'm' :: rest =>
    let la := rest.takeWhile isLowerAlpha
    let tryk : ℕ → Option (List Char) := fun k =>
      if k ≤ la.length then
        (if noWordAt (rest.drop k) then some ('m' :: rest.take k) else none)
      else none
    match tryk 3 with
    | some r => some r
    | none =>
      match tryk 2 with
      | some r => some r
      | none => tryk 1
  | _ => none

/-- Per-position matcher for `extractSetCode`: word boundary, then the sv-
alternative, then the m-alternative. -/
def setCodeAt (prev : Option Char) (l : List Char) : Option (List Char) :=
  if noWordBefore prev then
    match svBranchAt l with
    | some r => some r
    | none => mBranchAt l
  else none

/-- `extractSetCode` (lines 1036-1041): first word-delimited set code in
the normalized title. -/
def extractSetCode (title : String) : Option String :=
  match scanFirst setCodeAt none (normStr title).data with
  | some r => some (String.mk r)
  | none => none

/-- Tail of the Japanese set-code heuristic after the leading letters:
one to three digits then exactly the letter a, at the very end. -/
def setCodeJaTailOk (rest : List Char) : Bool :=
  let ds := rest.takeWhile isDigitCh
  (decide (1 ≤ ds.length)) && (decide (ds.length ≤ 3)) && (rest.drop ds.length == ['a'])

/-- The anchored heuristic pattern of `inferLangFromSetCode`. -/
def matchJaSetCode (code : List Char) : Bool :=
  (match code with | 's' :: 'v' :: rest => setCodeJaTailOk rest | _ => false) ||
  (match code with | 's' :: 'm' :: rest => setCodeJaTailOk rest | _ => false) ||
  (match code with | 's' :: rest => setCodeJaTailOk rest | _ => false) ||
  (match code with | 'b' :: 'w' :: rest => setCodeJaTailOk rest | _ => false) ||
  (match code with | 'x' :: 'y' :: rest => setCodeJaTailOk rest | _ => false)

/-- `inferLangFromSetCode` (lines 1005-1013): heuristic fallback used only
where the set of Japanese set ids is unavailable. -/
def inferLangFromSetCode (setCode : Option String) : Option String :=
  let code := normStr (match setCode with | some s => s | none => "")
  if matchJaSetCode code.data then some "ja" else none

/-- Digit list to natural number. -/
def digitsToNat (ds : List Char) : ℕ :=
  ds.foldl (fun n c => 10 * n + (c.toNat - '0'.toNat)) 0

/-- Per-position matcher for the grade pattern of `detectGraadBucket`:
the literal graad, optional whitespace, one or two digits (greedy), then
an optional half suffix (dot-or-comma five).  The grade is returned as
TWICE its numeric value (so 9.5 becomes 19), which is exact because the
pattern only produces whole or half grades. -/
def graadGradeAt (_prev : Option Char) (l : List Char) : Option ℕ :=
  if "graad".data.isPrefixOf l then
    let rest := (l.drop 5).dropWhile isJsSpace
    let run := rest.takeWhile isDigitCh
    if run.isEmpty then none
    else
      let ds := run.take 2
      let n := digitsToNat ds
      match rest.drop ds.length with
      | c :: '5' :: _ =>
        if c == '.' || c == ',' then some (2 * n + 1) else some (2 * n)
      | _ => some (2 * n)
  else none

/-- Grade (in half units) found by the first match of the grade pattern in
a normalized title, if any. -/
def firstGraadGrade (t : List Char) : Option ℕ :=
  scanFirst graadGradeAt none t

/-- The grade-to-bucket cascade of `detectGraadBucket` (lines 1022-1033),
with grades in half units: exact hits at 7, 8, 9, 9.5, 10, then the
half-open rounding intervals. -/
def bucketOfG2 (g2 : ℕ) : String :=
  if g2 = 20 then "graad_10"
  else if g2 = 19 then "graad_9_5"
  else if g2 = 18 then "graad_9"
  else if g2 = 16 then "graad_8"
  else if g2 = 14 then "graad_7"
  else if 18 < g2 ∧ g2 < 19 then "graad_9"
  else if 16 < g2 ∧ g2 < 18 then "graad_8"
  else if 14 < g2 ∧ g2 < 16 then "graad_7"
  else "graad_unknown"

/-- `detectGraadBucket` (lines 1015-1034): null without a graad token,
graad_unknown when no grade parses, otherwise the bucket cascade. -/
def detectGraadBucket (title : String) : Option String :=
  let t := (normStr title).data
  if !(containsSub t "graad".data) then none
  else
    match firstGraadGrade t with
    | none => some "graad_unknown"
    | some g2 => some (bucketOfG2 g2)

/-! ## `extractLocalId` (lines 1043-1062), on the RAW title -/

/-- Try the fraction pattern at this position with numerator length `k`. -/
def fracTryNumLen (l : List Char) (k : ℕ) : Option (List Char) :=
  let ds := l.takeWhile isDigitCh
  if k ≤ ds.length then
    match (l.drop k).dropWhile isJsSpace with
    | '/' :: rest2 =>
      if 1 ≤ ((rest2.dropWhile isJsSpace).takeWhile isDigitCh).length then
        some (ds.take k)
      else none
    | _ => none
  else none

/-- Per-position matcher for the fraction pattern (one to three digits,
optional spaces, a slash, optional spaces, one to three digits); returns
the numerator.  Greedy: longer numerators first. -/
def fractionAt (_prev : Option Char) (l : List Char) : Option (List Char) :=
  match fracTryNumLen l 3 with
  | some r => some r
  | none =>
    match fracTryNumLen l 2 with
    | some r => some r
    | none => fracTryNumLen l 1

/-- Try the promo pattern at this position with `a` uppercase letters and
`d` digits. -/
def promoTry (l : List Char) (a d : ℕ) : Option (List Char) :=
  let las := l.takeWhile isUpperAlpha
  if a ≤ las.length then
    let rest := l.drop a
    let ds := rest.takeWhile isDigitCh
    if d ≤ ds.length then
      if noWordAt (rest.drop d) then some (las.take a ++ ds.take d) else none
    else none
  else none

/-- Per-position matcher for the word-delimited promo/serial pattern (one
to four uppercase letters then one to four digits, both greedy). -/
def promoAt (prev : Option Char) (l : List Char) : Option (List Char) :=
  if noWordBefore prev then
    ([(4,4),(4,3),(4,2),(4,1),(3,4),(3,3),(3,2),(3,1),
      (2,4),(2,3),(2,2),(2,1),(1,4),(1,3),(1,2),(1,1)] :
      List (ℕ × ℕ)).findSome? (fun p => promoTry l p.1 p.2)
  else none

/-- ASCII-only lowercase used for the case-insensitive graad match. -/
def asciiLower (c : Char) : Char :=
  if ('A' ≤ c) && (c ≤ 'Z') then Char.ofNat (c.toNat + 32) else c

/-- Case-insensitive prefix test (the pattern is given in lowercase). -/
def ciIsPrefix : List Char → List Char → Bool
  | [], _ => true
  | _ :: _, [] => false
  | p :: ps, c :: cs => (p == asciiLower c) && ciIsPrefix ps cs

/-- Length of the case-insensitive grade match (graad, optional spaces,
one or two digits, optional half suffix) at the head of the list. -/
def graadMatchLen (l : List Char) : Option ℕ :=
  if ciIsPrefix "graad".data l then
    let rest := l.drop 5
    let sp := (rest.takeWhile isJsSpace).length
    let rest2 := rest.drop sp
    let ds := (rest2.takeWhile isDigitCh).take 2
    if ds.isEmpty then none
    else
      match rest2.drop ds.length with
      | c :: '5' :: _ =>
        if c == '.' || c == ',' then some (5 + sp + ds.length + 2)
        else some (5 + sp + ds.length)
      | _ => some (5 + sp + ds.length)
  else none

/-- The global replacement of every grade match by a single space (the
fuel is an upper bound on the number of scan steps; each step consumes at
least one character). -/
def stripGraadAux : ℕ → List Char → List Char
  | 0, l => l
  | _ + 1, [] => []
  | fuel + 1, c :: cs =>
    match graadMatchLen (c :: cs) with
    | some k => ' ' :: stripGraadAux fuel ((c :: cs).drop k)
    | none => c :: stripGraadAux fuel cs

def stripGraad (l : List Char) : List Char := stripGraadAux l.length l

/-- Try the trailing-number pattern with `k` digits. -/
def hashNumTry (rest : List Char) (k : ℕ) : Option (List Char) :=
  let ds := rest.takeWhile isDigitCh
  if k ≤ ds.length then
    (if noWordAt (rest.drop k) then some (ds.take k) else none)
  else none

/-- Per-position matcher for the fallback pattern: word boundary, optional
hash, optional spaces, two or three digits (greedy), word boundary. -/
def hashNumAt (prev : Option Char) (l : List Char) : Option (List Char) :=
  if boundaryAt prev l then
    let afterHash :=
      match l with
      | '#' :: rest => rest
      | _ => l
    let rest := afterHash.dropWhile isJsSpace
    match hashNumTry rest 3 with
    | some r => some r
    | none => hashNumTry rest 2
  else none

/-- `extractLocalId`: fraction numerator first, then promo/serial, then the
two-to-three digit fallback on the title with grade tokens stripped. -/
def extractLocalId (title : String) : Option String :=
  let raw := title.data
  match scanFirst fractionAt none raw with
  | some r => some (String.mk r)
  | none =>
    match scanFirst promoAt none raw with
    | some r => some (String.mk r)
    | none =>
      match scanFirst hashNumAt none (stripGraad raw) with
      | some r => some (String.mk r)
      | none => none

example : extractLocalId "Mew 025 SV3.5 GRAAD 10" = some "SV3" := by decide
example : extractLocalId "pokemon graad 9.5 charizard" = none := by decide
example : extractLocalId "Pikachu V 181/165 SV9A JAP GRAAD 9.5" = some "181" := by decide
example : detectGraadBucket "Mew 025 SV3.5 GRAAD 10" = some "graad_10" := by decide
example : detectGraadBucket "pokemon graad 9 graad 10" = some "graad_9" := by decide
example : detectGraadBucket "no grade here" = none := by decide
example : detectGraadBucket "graad mint" = some "graad_unknown" := by decide
example : extractSetCode "Mew 025 SV3.5 GRAAD 10" = some "mew" := by decide
example : extractSetCode "Pikachu V 181/165 SV9A JAP" = some "sv9a" := by decide
example : inferLangFromSetCode (some "sv9a") = some "ja" := by decide
example : inferLangFromSetCode (some "sv2") = none := by decide
example : detectLangFromTitle "Pikachu JAP" = some "ja" := by decide
example : detectLangFromTitle "Charizard ENG" = some "en" := by decide
example : isLikelyLot "Lot 50 Pokemon Cards Random GRAAD 8" = true := by decide
example : isLikelyLot "Eevee 133/165 graad 1" = false := by decide

/-! ## Title → card matcher (update.js lines 1064-1146)

`Card` keeps exactly the catalog fields the embedded functions read
(`id`, `name`, `nameEn`, `lang`, `setId`, `number`, `imageLarge`); string
fields that JS treats as falsy-when-empty are plain strings with the
empty string as the falsy value, genuinely nullable fields are Option. -/

structure Card where
  id : String
  name : String
  nameEn : Option String
  lang : String
  setId : String
  number : String
  imageLarge : String
deriving DecidableEq, Repr

/-- `titleHasName` (lines 1064-1070): the normalized title contains the
normalized display name, or the normalized English name when present. -/
def titleHasName (tNorm : String) (c : Card) : Bool :=
  containsSub tNorm.data (normStr c.name).data ||
  (match c.nameEn with
   | some ne => containsSub tNorm.data (normStr ne).data
   | none => false)

/-- Matcher result.  `confidence` is in HUNDREDTHS of the JS value
(so 0.72 becomes 72): every confidence constant in the source is a
whole number of hundredths and the only observable uses are order
comparisons (`Math.min` caps, the 0.72 acceptance threshold), so the
scaled-integer encoding is exact. -/
structure MatchResult where
  card : Option Card
  confidence : ℕ
  mode : Option String
deriving DecidableEq, Repr

/-- The two language guards shared by every candidate filter
(`if (lang && c.lang !== lang) return false;
 if (!lang && finalLang && c.lang !== finalLang) return false;`). -/
def langFilterOk (lang finalLang : Option String) (c : Card) : Bool :=
  (match lang with | some l => c.lang == l | none => true) &&
  (match lang, finalLang with
   | none, some fl => c.lang == fl
   | _, _ => true)

/-- The image tie-break loop: replace the current best by the first
candidate that has an image while the best does not. -/
def pickBest (l : List Card) (b : Card) : Card :=
  l.foldl (fun best c =>
    if (c.imageLarge != "") && (best.imageLarge == "") then c else best) b

/-- Candidate filter of the name-only fallback (no local id). -/
def byNamePred (lang finalLang setCode : Option String) (t : String) (c : Card) : Bool :=
  langFilterOk lang finalLang c &&
  (match setCode with | some sc => normStr c.setId == normStr sc | none => true) &&
  titleHasName t c

/-- Candidate filter of pass 1 (strict): language, set code, number, name. -/
def strictPred (lang finalLang setCode : Option String) (lid : String) (t : String)
    (c : Card) : Bool :=
  langFilterOk lang finalLang c &&
  (match setCode with | some sc => normStr c.setId == normStr sc | none => true) &&
  (c.number == "" || normStr c.number == normStr lid) &&
  titleHasName t c

/-- Candidate filter of pass 2 (loose): number, name, language if present. -/
def loosePred (lang finalLang : Option String) (lid : String) (t : String)
    (c : Card) : Bool :=
  langFilterOk lang finalLang c &&
  (c.number == "" || normStr c.number == normStr lid) &&
  titleHasName t c

/-- Result of the name-only branch: base 72, +5 for a set code, +3 for a
language, capped at 82 (hundredths). -/
def nameOnlyFrom (byName : List Card) (setCode finalLang : Option String) : MatchResult :=
  match byName with
  | [] => { card := none, confidence := 0, mode := none }
  | b :: rest =>
    let conf : ℕ := 72 + (match setCode with | some _ => 5 | none => 0) +
                    (match finalLang with | some _ => 3 | none => 0)
    { card := some (pickBest (b :: rest) b), confidence := min conf 82,
      mode := some "name_only" }

/-- Result of the strict pass on a non-empty candidate list: base 86,
+4 for a language, capped at 100 (hundredths). -/
def strictFrom (b : Card) (rest : List Card) (finalLang : Option String) : MatchResult :=
  let conf : ℕ := 86 + (match finalLang with | some _ => 4 | none => 0)
  { card := some (pickBest (b :: rest) b), confidence := min conf 100,
    mode := some "strict" }

/-- Result of the loose pass: family tie-break on the first two characters
of the set code, then the image tie-break; base 80, +5 for a language,
capped at 90 (hundredths). -/
def looseFrom (looseL : List Card) (setCode finalLang : Option String) : MatchResult :=
  match looseL with
  | [] => { card := none, confidence := 0, mode := none }
  | b :: rest =>
    let best0 :=
      match setCode with
      | some sc =>
        match (b :: rest).find? (fun c =>
          ((normStr sc).data.take 2).isPrefixOf (normStr c.setId).data) with
        | some fam => fam
        | none => b
      | none => b
    let conf : ℕ := 80 + (match finalLang with | some _ => 5 | none => 0)
    { card := some (pickBest (b :: rest) best0), confidence := min conf 90,
      mode := some "loose" }

/-- `bestMatchCard` (lines 1072-1146). -/
def bestMatchCard (cards : List Card) (title : String) : MatchResult :=
  let t := normStr title
  if isLikelyLot t then { card := none, confidence := 0, mode := none }
  else
    let lang := detectLangFromTitle t
    let setCode := extractSetCode title
    let langBySet := inferLangFromSetCode setCode
    let finalLang := match lang with | some l => some l | none => langBySet
    match extractLocalId title with
    | none => nameOnlyFrom (cards.filter (byNamePred lang finalLang setCode t)) setCode finalLang
    | some lid =>
      match cards.filter (strictPred lang finalLang setCode lid t) with
      | b :: rest => strictFrom b rest finalLang
      | [] => looseFrom (cards.filter (loosePred lang finalLang lid t)) setCode finalLang

/-! ## Sales collection, rolling window, dedup (update.js main, lines 1223-1309) -/

/-- A JS number as stored in a sale/listing: either a finite rational or
one of the non-finite values (NaN, Infinity) that `median` filters out. -/
inductive JsNum where
  | fin (q : ℚ)
  | nonfinite
deriving DecidableEq, Repr

def finVal? : JsNum → Option ℚ
  | .fin q => some q
  | .nonfinite => none

/-- A parsed marketplace search row (`parseEbaySearchItems` output). -/
structure Item where
  title : String
  url : String
  price_eur : JsNum
deriving DecidableEq, Repr

/-- A sale record as persisted in sales_30d.json.  `collectedAt` is the
ISO-8601 instant modelled as epoch milliseconds (the source compares
`new Date(s.collectedAt).getTime()` against a millisecond cutoff). -/
structure Sale where
  collectedAt : ℤ
  source : String
  title : String
  url : String
  price_eur : JsNum
  cardId : String
  bucket : String
deriving DecidableEq, Repr

/-- The dedup key: in JS the string `url|price_eur|cardId|bucket`; the
4-tuple has the same equality on the values the pipeline produces. -/
def saleKey (s : Sale) : String × JsNum × String × String :=
  (s.url, s.price_eur, s.cardId, s.bucket)

/-- Acceptance decision for one already-classified, already-matched item
(the tail of the collection loop body, lines 1273-1291): the gradedOnly
filter, the confidence threshold, and the emitted record. -/
def acceptSale (gradedOnly : Bool) (collectedAt : ℤ) (it : Item)
    (bucket : Option String) (m : MatchResult) : Option Sale :=
  let graded := match bucket with
    | some b => strStartsWith b "graad_"
    | none => false
  let priceBucket := match bucket with
    | some b => if strStartsWith b "graad_" then b else "raw"
    | none => "raw"
  if gradedOnly && !graded then none
  else
    match m.card with
    | none => none
    | some card =>
      if m.confidence < 72 then none
      else some { collectedAt := collectedAt, source := "ebay.it", title := it.title,
                  url := it.url, price_eur := it.price_eur, cardId := card.id,
                  bucket := priceBucket }

/-- The per-item body of the collection loop (lines 1270-1292): drop lots,
classify the grading bucket, match against the catalog, then decide. -/
def collectItem (gradedOnly : Bool) (collectedAt : ℤ) (cards : List Card)
    (it : Item) : Option Sale :=
  if isLikelyLot it.title then none
  else acceptSale gradedOnly collectedAt it (detectGraadBucket it.title)
    (bestMatchCard cards it.title)

/-- One step of the dedup merge (lines 1299-1307): state is the set of
seen keys (as a list) and the accumulated kept list. -/
def mergeStep (st : List (String × JsNum × String × String) × List Sale) (s : Sale) :
    List (String × JsNum × String × String) × List Sale :=
  let k := saleKey s
  if k ∈ st.1 then st else (k :: st.1, st.2 ++ [s])

/-- Merge newly collected sales into the retained list, skipping any sale
whose key was already seen. -/
def mergeSales (kept news : List Sale) : List Sale :=
  (news.foldl mergeStep (kept.map saleKey, kept)).2

/-- The sales phase of `main` (lines 1223-1309): prune the loaded sales to
the 30-day window, collect new sales from the fetched items (each tagged
with its query gradedOnly flag), and merge with dedup.  The result is
what is written to sales_30d.json. -/
def runSalesPhase (cards : List Card) (oldSales : List Sale) (now : ℤ)
    (items : List (Bool × Item)) : List Sale :=
  let cutoff := now - 30 * 24 * 3600 * 1000
  let kept := oldSales.filter (fun s => cutoff ≤ s.collectedAt)
  let newSales := items.filterMap (fun gi => collectItem gi.1 now cards gi.2)
  mergeSales kept newSales

/-! ## Median aggregation (update.js lines 48-55 and 1311-1333) -/

def insertSorted (x : ℚ) : List ℚ → List ℚ
  | [] => [x]
  | y :: ys => if x ≤ y then x :: y :: ys else y :: insertSorted x ys

/-- Ascending numeric sort (`.sort((a, b) => a - b)`). -/
def sortAsc (l : List ℚ) : List ℚ := l.foldr insertSorted []

/-- `median` (lines 48-55): keep the finite numbers, sort ascending,
return the middle element, or the mean of the two middle elements for
even length; null for an empty (filtered) array. -/
def median (nums : List JsNum) : Option ℚ :=
  let arr := sortAsc (nums.filterMap finVal?)
  match arr with
  | [] => none
  | _ :: _ =>
    let mid := arr.length / 2
    if arr.length % 2 = 1 then some (arr.getD mid 0)
    else some ((arr.getD (mid - 1) 0 + arr.getD mid 0) / 2)

/-- The per-card bucket arrays (`byCard[cardId]` initialisation,
lines 1314-1321). -/
structure Buckets where
  raw : List JsNum
  graad_7 : List JsNum
  graad_8 : List JsNum
  graad_9 : List JsNum
  graad_9_5 : List JsNum
  graad_10 : List JsNum
deriving DecidableEq, Repr

def emptyBuckets : Buckets := ⟨[], [], [], [], [], []⟩

/-- `byCard[cardId][bucket]`: defined only for the six canonical keys. -/
def getBucketArr (b : Buckets) (name : String) : Option (List JsNum) :=
  if name = "raw" then some b.raw
  else if name = "graad_7" then some b.graad_7
  else if name = "graad_8" then some b.graad_8
  else if name = "graad_9" then some b.graad_9
  else if name = "graad_9_5" then some b.graad_9_5
  else if name = "graad_10" then some b.graad_10
  else none

/-- `if (byCard[s.cardId][s.bucket]) push(...)`: append to the named
array when it exists, otherwise do nothing (e.g. graad_unknown). -/
def pushBucket (b : Buckets) (name : String) (p : JsNum) : Buckets :=
  if name = "raw" then { b with raw := b.raw ++ [p] }
  else if name = "graad_7" then { b with graad_7 := b.graad_7 ++ [p] }
  else if name = "graad_8" then { b with graad_8 := b.graad_8 ++ [p] }
  else if name = "graad_9" then { b with graad_9 := b.graad_9 ++ [p] }
  else if name = "graad_9_5" then { b with graad_9_5 := b.graad_9_5 ++ [p] }
  else if name = "graad_10" then { b with graad_10 := b.graad_10 ++ [p] }
  else b

/-- First-match association-list lookup (JS object property read). -/
def findA {α : Type} : List (String × α) → String → Option α
  | [], _ => none
  | (k, v) :: rest, key => if k = key then some v else findA rest key

/-- First-match association-list update (JS object property write). -/
def updateA {α : Type} : List (String × α) → String → α → List (String × α)
  | [], _, _ => []
  | (k, v) :: rest, key, nv =>
    if k = key then (k, nv) :: rest else (k, v) :: updateA rest key nv

/-- One step of the byCard accumulation (lines 1313-1323). -/
def stepByCard (m : List (String × Buckets)) (s : Sale) : List (String × Buckets) :=
  match findA m s.cardId with
  | none => m ++ [(s.cardId, pushBucket emptyBuckets s.bucket s.price_eur)]
  | some b => updateA m s.cardId (pushBucket b s.bucket s.price_eur)

def buildByCard (kept : List Sale) : List (String × Buckets) :=
  kept.foldl stepByCard []

def bucketNames : List String :=
  ["raw", "graad_7", "graad_8", "graad_9", "graad_9_5", "graad_10"]

/-- The aggregate row for one card (lines 1326-1331), in the insertion
order of the six bucket keys. -/
def aggregateEntries (b : Buckets) : List (String × (Option ℚ × ℕ)) :=
  [("raw", (median b.raw, b.raw.length)),
   ("graad_7", (median b.graad_7, b.graad_7.length)),
   ("graad_8", (median b.graad_8, b.graad_8.length)),
   ("graad_9", (median b.graad_9, b.graad_9.length)),
   ("graad_9_5", (median b.graad_9_5, b.graad_9_5.length)),
   ("graad_10", (median b.graad_10, b.graad_10.length))]

/-- The full prices.json payload (`priceOut.byCard`). -/
def aggregatePrices (kept : List Sale) : List (String × List (String × (Option ℚ × ℕ))) :=
  (buildByCard kept).map (fun p => (p.1, aggregateEntries p.2))

/-- Lookup of one (cardId, bucket) aggregate entry in prices.json. -/
def priceEntry (kept : List Sale) (cid bname : String) : Option (Option ℚ × ℕ) :=
  match findA (aggregatePrices kept) cid with
  | none => none
  | some entries => findA entries bname

/-! ## HTTP fetch with retries (update.js lines 86-132)

One attempt is abstracted as a `FetchOutcome`: a network failure (the
`fetch` call or the body read threw), or a response with its HTTP status
and, for 2xx statuses, the parsed body (`none` when `resp.json()` /
`resp.text()` threw — the parse/read happens inside the try block, so
its failure is caught and handled like a thrown fetch).  `fetchJson` and
`fetchHtml` have identical control flow and differ only in body type and
backoff duration (400 ms vs 500 ms, not modelled), so both are
instances of `fetchWithRetries`. -/

inductive FetchOutcome (α : Type) where
  | netError
  | resp (status : ℕ) (body : Option α)
deriving DecidableEq, Repr

/-- `resp.ok`: status in the 2xx range. -/
def isOkStatus (s : ℕ) : Bool := (200 ≤ s) && (s ≤ 299)

/-- The retry loop (`for (let i = 0; i <= retries; i++)`), with the fuel
argument bounding the remaining iterations; the second component of the
result is the number of attempts performed. -/
def fetchGo {α : Type} (f : ℕ → FetchOutcome α) (retries : ℕ) :
    ℕ → ℕ → Option α × ℕ
  | 0, i => (none, i)
  | fuel + 1, i =>
    match f i with
    | .netError => if i < retries then fetchGo f retries fuel (i + 1) else (none, i + 1)
    | .resp s body =>
      if isOkStatus s then
        match body with
        | some j => (some j, i + 1)
        | none => if i < retries then fetchGo f retries fuel (i + 1) else (none, i + 1)
      else
        if (s = 429 ∨ 500 ≤ s) ∧ i < retries then fetchGo f retries fuel (i + 1)
        else (none, i + 1)

/-- `fetchJson` / `fetchHtml` (retries defaults to 4 at the call sites):
run the attempts in order and return the result together with the number
of attempts performed. -/
def fetchWithRetries {α : Type} (f : ℕ → FetchOutcome α) (retries : ℕ) :
    Option α × ℕ :=
  fetchGo f retries (retries + 1) 0

/-- The retry conditions actually present in the code: network failure,
HTTP 429, HTTP 5xx, or a 2xx response whose body read/parse failed. -/
def retryTrigger {α : Type} : FetchOutcome α → Bool
  | .netError => true
  | .resp s body =>
    (isOkStatus s && body.isNone) || (s == 429) || decide (500 ≤ s)

/-! ## Rank of the grading buckets, for the monotonicity statement -/

def bucketRank : Option String → ℕ
  | some "graad_7" => 1
  | some "graad_8" => 2
  | some "graad_9" => 3
  | some "graad_9_5" => 4
  | some "graad_10" => 5
  | _ => 0

/-! ## Concrete fixtures for counterexamples and witnesses -/

/-- An English catalog card whose number appears as a fraction numerator. -/
def cardEevee : Card :=
  { id := "zz-133-eevee-en", name := "Eevee", nameEn := some "Eevee",
    lang := "en", setId := "zz", number := "133", imageLarge := "" }

/-- A Japanese catalog card for the language-consistency witnesses. -/
def cardPikaJa : Card :=
  { id := "sv9a-181-pikachu-ja", name := "Pikachu", nameEn := some "Pikachu",
    lang := "ja", setId := "sv9a", number := "181", imageLarge := "" }

/-- A graded-query listing whose graad token carries an unrecognised
grade (1), so `detectGraadBucket` yields graad_unknown. -/
def itemUnknownGrade : Item :=
  { title := "Eevee 133/165 graad 1", url := "https://example.test/a",
    price_eur := JsNum.fin 10 }

/-- A stale-free sale whose cardId exists in no current catalog. -/
def ghostSale : Sale :=
  { collectedAt := 0, source := "ebay.it", title := "Mew old listing",
    url := "https://example.test/ghost", price_eur := JsNum.fin 5,
    cardId := "gone-001-mew-en", bucket := "raw" }

example :
    collectItem true 0 [cardEevee] itemUnknownGrade =
      some { collectedAt := 0, source := "ebay.it", title := "Eevee 133/165 graad 1",
             url := "https://example.test/a", price_eur := JsNum.fin 10,
             cardId := "zz-133-eevee-en", bucket := "graad_unknown" } := by decide

example : runSalesPhase [cardEevee] [ghostSale] 0 [] = [ghostSale] := by decide

example :
    (bestMatchCard [cardPikaJa] "Pikachu jap").confidence = 75 := by decide

/-- The sale that `collectItem` emits for `itemUnknownGrade`. -/
def saleUnknownGrade : Sale :=
  { collectedAt := 0, source := "ebay.it", title := "Eevee 133/165 graad 1",
    url := "https://example.test/a", price_eur := JsNum.fin 10,
    cardId := "zz-133-eevee-en", bucket := "graad_unknown" }


/-- Attempt sequence whose first response is HTTP 200 with a body that
fails to parse, and whose second parses fine. -/
def fC10 : ℕ → FetchOutcome ℕ :=
  fun i => if i = 0 then FetchOutcome.resp 200 none else FetchOutcome.resp 200 (some 7)

/-- Attempt sequence that always answers HTTP 404. -/
def gC10 : ℕ → FetchOutcome ℕ := fun _ => FetchOutcome.resp 404 none


/-- The bucket array reachable from an optional byCard entry (proof
infrastructure for the aggregation invariant). -/
def bucketsField (ob : Option Buckets) (name : String) : List JsNum :=
  match ob with
  | none => []
  | some b => (getBucketArr b name).getD []


/-! ## Well-formedness predicates for normalized whitespace (proof infrastructure) -/

/-- Every whitespace character in the list is a literal space. -/
def spacesAreSpace (l : List Char) : Prop :=
  ∀ c ∈ l, isJsSpace c = true → c = ' '

/-- No two adjacent whitespace characters. -/
def noAdjSpace (l : List Char) : Prop :=
  List.Chain' (fun a b => isJsSpace a = false ∨ isJsSpace b = false) l

/-- The head, if any, is not whitespace. -/
def headNotSpace : List Char → Prop
  | [] => True
  | c :: _ => isJsSpace c = false


/-! # Theorems -/

/-! ## C3: extractLocalId on the E5 title -/

/-- C3 counterexample: on the title Mew 025 SV3.5 GRAAD 10 the claim says
`extractLocalId` returns 025; in fact the promo/serial pattern (the second
rule of the specified extraction order) matches the SV3 prefix of SV3.5
first, so the function returns SV3, not 025. -/
theorem c3_extractLocalId_cex :
    extractLocalId "Mew 025 SV3.5 GRAAD 10" = some "SV3" ∧
    (some "SV3" : Option String) ≠ some "025" := by
  exact ⟨by decide, by decide⟩

/-- C3 (amended): for the input title Mew 025 SV3.5 GRAAD 10,
`extractLocalId` returns SV3: the fraction rule does not apply (no slash),
and the promo/serial pattern, tried before the grade-stripped fallback,
matches the uppercase-letters-then-digits run SV3 inside SV3.5. -/
theorem c3_extractLocalId_sv3 :
    extractLocalId "Mew 025 SV3.5 GRAAD 10" = some "SV3" := by decide

/-! ## C4: grade monotonicity of detectGraadBucket -/

/-- A successful grade scan implies the graad token is present. -/
theorem graad_scan_contains (g : ℕ) :
    ∀ (prev : Option Char) (t : List Char),
      scanFirst graadGradeAt prev t = some g →
      containsSub t "graad".data = true := by
  intro prev t
  induction t generalizing prev with
  | nil => intro h; simp [scanFirst] at h
  | cons c rest ih =>
    intro h
    rw [scanFirst] at h
    rcases hm : graadGradeAt prev (c :: rest) with _ | r
    · rw [hm] at h
      simp only [containsSub, Bool.or_eq_true]
      exact Or.inr (ih (some c) h)
    · by_cases hp : ("graad".data.isPrefixOf (c :: rest) : Bool) = true
      · simp only [containsSub, Bool.or_eq_true]
        exact Or.inl hp
      · exfalso
        rw [graadGradeAt] at hm
        rw [if_neg hp] at hm
        exact Option.noConfusion hm

/-- When a grade parses, `detectGraadBucket` is the bucket cascade applied
to that grade. -/
theorem detectGraadBucket_of_grade (title : String) (g : ℕ)
    (h : firstGraadGrade (normStr title).data = some g) :
    detectGraadBucket title = some (bucketOfG2 g) := by
  have hc : containsSub (normStr title).data "graad".data = true :=
    graad_scan_contains g none (normStr title).data h
  simp [detectGraadBucket, hc, h]

/-- The bucket cascade is monotone on grades between 7 and 10. -/
theorem bucketOfG2_mono (g1 g2 : ℕ) (hlo : 14 ≤ g1) (hle : g1 ≤ g2) (hhi : g2 ≤ 20) :
    bucketRank (some (bucketOfG2 g1)) ≤ bucketRank (some (bucketOfG2 g2)) := by
  have h1 : g1 ≤ 20 := le_trans hle hhi
  have h2 : 14 ≤ g2 := le_trans hlo hle
  interval_cases g1 <;> interval_cases g2 <;> simp_all <;> decide

/-- C4 (amended): `detectGradingBucket` is monotone in the PARSED grade of
the first graad token: whenever the first grade-pattern matches of two
titles parse to grades between 7 and 10 (in half units: 14..20) in
nondecreasing order, the resulting buckets are nondecreasing in the tier
order graad_7 < graad_8 < graad_9 < graad_9_5 < graad_10.  (Mere substring
containment of graad 10 is not enough: an earlier graad token, or a
longer numeral such as 10,5, decides the parse — see the counterexample.) -/
theorem c4_grade_monotone_amended :
    ∀ (t1 t2 : String) (g1 g2 : ℕ),
      firstGraadGrade (normStr t1).data = some g1 →
      firstGraadGrade (normStr t2).data = some g2 →
      14 ≤ g1 → g1 ≤ g2 → g2 ≤ 20 →
      bucketRank (detectGraadBucket t1) ≤ bucketRank (detectGraadBucket t2) := by
  intro t1 t2 g1 g2 h1 h2 hlo hle hhi
  rw [detectGraadBucket_of_grade t1 g1 h1, detectGraadBucket_of_grade t2 g2 h2]
  exact bucketOfG2_mono g1 g2 hlo hle hhi

/-- C4 witness: grades 9 and 10 at concrete titles. -/
theorem c4_grade_monotone_witness :
    firstGraadGrade (normStr "pokemon graad 9").data = some 18 ∧
    firstGraadGrade (normStr "pokemon graad 10").data = some 20 ∧
    bucketRank (detectGraadBucket "pokemon graad 9") ≤
      bucketRank (detectGraadBucket "pokemon graad 10") := by
  refine ⟨by decide, by decide, ?_⟩
  exact c4_grade_monotone_amended "pokemon graad 9" "pokemon graad 10" 18 20
    (by decide) (by decide) (by decide) (by decide) (by decide)

/-- C4 counterexample: the normalized title pokemon graad 9 graad 10
contains the token sequence graad 10, yet the bucket is graad_9 (below
graad_9_5), because the regex match takes the FIRST graad token. -/
theorem c4_monotone_cex :
    containsSub (normStr "pokemon graad 9 graad 10").data "graad 10".data = true ∧
    detectGraadBucket "pokemon graad 9 graad 10" = some "graad_9" := by
  exact ⟨by decide, by decide⟩

/-! ## C9: idempotence of the normalizer -/

theorem mem_dropWhileWs {c : Char} : ∀ {l : List Char},
    c ∈ l.dropWhile isJsSpace → c ∈ l := by
  intro l
  induction l with
  | nil => intro h; simp at h
  | cons d rest ih =>
    intro h
    rw [List.dropWhile_cons] at h
    by_cases hd : isJsSpace d = true
    · rw [if_pos hd] at h
      exact List.mem_cons_of_mem d (ih h)
    · rw [if_neg hd] at h
      exact h

theorem mem_trimWs {c : Char} {l : List Char} (h : c ∈ trimWs l) : c ∈ l := by
  rw [trimWs, dropTrailingWs] at h
  have h1 := mem_dropWhileWs (List.mem_reverse.mp h)
  exact mem_dropWhileWs (List.mem_reverse.mp h1)

theorem mem_collapseWsAux {c : Char} : ∀ {l : List Char} {b : Bool},
    c ∈ collapseWsAux b l → c = ' ' ∨ c ∈ l := by
  intro l
  induction l with
  | nil => intro b h; cases b <;> simp [collapseWsAux] at h
  | cons d rest ih =>
    intro b h
    by_cases hd : isJsSpace d = true
    · cases b with
      | true =>
        rw [collapseWsAux, if_pos hd] at h
        rcases ih h with h1 | h2
        · exact Or.inl h1
        · exact Or.inr (List.mem_cons_of_mem d h2)
      | false =>
        rw [collapseWsAux, if_pos hd] at h
        rcases List.mem_cons.mp h with h1 | h2
        · exact Or.inl h1
        · rcases ih h2 with h3 | h4
          · exact Or.inl h3
          · exact Or.inr (List.mem_cons_of_mem d h4)
    · cases b with
      | true =>
        rw [collapseWsAux, if_neg hd] at h
        rcases List.mem_cons.mp h with h1 | h2
        · exact Or.inr (h1 ▸ List.mem_cons_self d rest)
        · rcases ih h2 with h3 | h4
          · exact Or.inl h3
          · exact Or.inr (List.mem_cons_of_mem d h4)
      | false =>
        rw [collapseWsAux, if_neg hd] at h
        rcases List.mem_cons.mp h with h1 | h2
        · exact Or.inr (h1 ▸ List.mem_cons_self d rest)
        · rcases ih h2 with h3 | h4
          · exact Or.inl h3
          · exact Or.inr (List.mem_cons_of_mem d h4)

theorem collapseWsAux_spacesAre : ∀ (l : List Char) (b : Bool),
    spacesAreSpace (collapseWsAux b l) := by
  intro l
  induction l with
  | nil => intro b c hc; cases b <;> simp [collapseWsAux] at hc
  | cons d rest ih =>
    intro b c hc hsp
    by_cases hd : isJsSpace d = true
    · cases b with
      | true =>
        rw [collapseWsAux, if_pos hd] at hc
        exact ih true c hc hsp
      | false =>
        rw [collapseWsAux, if_pos hd] at hc
        rcases List.mem_cons.mp hc with h1 | h2
        · exact h1
        · exact ih true c h2 hsp
    · cases b with
      | true =>
        rw [collapseWsAux, if_neg hd] at hc
        rcases List.mem_cons.mp hc with h1 | h2
        · exact absurd (h1 ▸ hsp) (by simp [hd])
        · exact ih false c h2 hsp
      | false =>
        rw [collapseWsAux, if_neg hd] at hc
        rcases List.mem_cons.mp hc with h1 | h2
        · exact absurd (h1 ▸ hsp) (by simp [hd])
        · exact ih false c h2 hsp

theorem noAdjSpace_cons {a : Char} {l : List Char}
    (h1 : isJsSpace a = false ∨ headNotSpace l) (h2 : noAdjSpace l) :
    noAdjSpace (a :: l) := by
  rw [noAdjSpace, List.chain'_cons']
  refine ⟨?_, h2⟩
  intro y hy
  rcases h1 with ha | hh
  · exact Or.inl ha
  · cases l with
    | nil => simp at hy
    | cons c rest =>
      simp at hy
      exact Or.inr (hy ▸ hh)

theorem noAdjSpace_tail {a : Char} {l : List Char} (h : noAdjSpace (a :: l)) :
    noAdjSpace l :=
  (List.chain'_cons'.mp h).2

theorem collapseWsAux_noAdj : ∀ (l : List Char),
    noAdjSpace (collapseWsAux false l) ∧
    (noAdjSpace (collapseWsAux true l) ∧ headNotSpace (collapseWsAux true l)) := by
  intro l
  induction l with
  | nil =>
    refine ⟨?_, ?_, trivial⟩ <;> simp [collapseWsAux, noAdjSpace]
  | cons d rest ih =>
    obtain ⟨ihf, iht, ihh⟩ := ih
    by_cases hd : isJsSpace d = true
    · refine ⟨?_, ?_, ?_⟩
      · rw [collapseWsAux, if_pos hd]
        exact noAdjSpace_cons (Or.inr ihh) iht
      · rw [collapseWsAux, if_pos hd]
        exact iht
      · rw [collapseWsAux, if_pos hd]
        exact ihh
    · refine ⟨?_, ?_, ?_⟩
      · rw [collapseWsAux, if_neg hd]
        exact noAdjSpace_cons (Or.inl (by simpa using hd)) ihf
      · rw [collapseWsAux, if_neg hd]
        exact noAdjSpace_cons (Or.inl (by simpa using hd)) ihf
      · rw [collapseWsAux, if_neg hd]
        show isJsSpace d = false
        simpa using hd

theorem collapseWsAux_id : ∀ (l : List Char),
    spacesAreSpace l → noAdjSpace l →
    (collapseWsAux false l = l ∧ (headNotSpace l → collapseWsAux true l = l)) := by
  intro l
  induction l with
  | nil => intro _ _; exact ⟨rfl, fun _ => rfl⟩
  | cons d rest ih =>
    intro hsp hadj
    have hsp2 : spacesAreSpace rest := fun c hc h => hsp c (List.mem_cons_of_mem d hc) h
    have hadj2 : noAdjSpace rest := noAdjSpace_tail hadj
    obtain ⟨ihf, iht⟩ := ih hsp2 hadj2
    by_cases hd : isJsSpace d = true
    · have hd2 : d = ' ' := hsp d (List.mem_cons_self d rest) hd
      have hh : headNotSpace rest := by
        cases rest with
        | nil => trivial
        | cons c rs =>
          have hr := (List.chain'_cons'.mp hadj).1 c (by simp)
          rcases hr with h1 | h2
          · rw [hd] at h1; exact absurd h1 (by simp)
          · exact h2
      constructor
      · rw [collapseWsAux, if_pos hd, iht hh, hd2]
      · intro hhead
        exact absurd hhead (by simp [headNotSpace, hd])
    · constructor
      · rw [collapseWsAux, if_neg hd, ihf]
      · intro _
        rw [collapseWsAux, if_neg hd, ihf]

theorem dropWhileWs_noAdj : ∀ {l : List Char},
    noAdjSpace l → noAdjSpace (l.dropWhile isJsSpace) := by
  intro l
  induction l with
  | nil => intro h; simpa using h
  | cons d rest ih =>
    intro h
    rw [List.dropWhile_cons]
    by_cases hd : isJsSpace d = true
    · rw [if_pos hd]
      exact ih (noAdjSpace_tail h)
    · rw [if_neg hd]
      exact h

theorem dropWhileWs_head : ∀ (l : List Char),
    headNotSpace (l.dropWhile isJsSpace) := by
  intro l
  induction l with
  | nil => trivial
  | cons d rest ih =>
    rw [List.dropWhile_cons]
    by_cases hd : isJsSpace d = true
    · rw [if_pos hd]; exact ih
    · rw [if_neg hd]
      show isJsSpace d = false
      simpa using hd

theorem dropWhileWs_id {l : List Char} (h : headNotSpace l) :
    l.dropWhile isJsSpace = l := by
  cases l with
  | nil => rfl
  | cons d rest =>
    have hd : isJsSpace d = false := h
    rw [List.dropWhile_cons, if_neg (by simp [hd])]

theorem noAdjSpace_reverse {l : List Char} (h : noAdjSpace l) :
    noAdjSpace l.reverse := by
  rw [noAdjSpace, List.chain'_reverse]
  exact List.Chain'.imp (fun a b hab => Or.symm hab) h

/-- Every prefix obtained by dropping a trailing run keeps a non-space head. -/
theorem dropWhileWs_sfx : ∀ (l : List Char),
    ∃ pre, pre ++ l.dropWhile isJsSpace = l := by
  intro l
  induction l with
  | nil => exact ⟨[], rfl⟩
  | cons d rest ih =>
    by_cases hd : isJsSpace d = true
    · obtain ⟨pre, hp⟩ := ih
      refine ⟨d :: pre, ?_⟩
      rw [List.dropWhile_cons, if_pos hd, List.cons_append, hp]
    · refine ⟨[], ?_⟩
      rw [List.dropWhile_cons, if_neg hd, List.nil_append]

theorem dropTrailing_head {z : List Char} (h : headNotSpace z) :
    headNotSpace (dropTrailingWs z) := by
  obtain ⟨pre, hp⟩ := dropWhileWs_sfx z.reverse
  have hz : z = (z.reverse.dropWhile isJsSpace).reverse ++ pre.reverse := by
    calc z = z.reverse.reverse := (List.reverse_reverse z).symm
    _ = (pre ++ z.reverse.dropWhile isJsSpace).reverse := by rw [hp]
    _ = (z.reverse.dropWhile isJsSpace).reverse ++ pre.reverse := by
      rw [List.reverse_append]
  rw [dropTrailingWs]
  cases hw : (z.reverse.dropWhile isJsSpace).reverse with
  | nil => trivial
  | cons c cs =>
    rw [hz, hw, List.cons_append] at h
    exact h

theorem trimWs_id {l : List Char} (h1 : headNotSpace l)
    (h2 : headNotSpace l.reverse) : trimWs l = l := by
  rw [trimWs, dropWhileWs_id h1, dropTrailingWs, dropWhileWs_id h2,
    List.reverse_reverse]

theorem nfkd_of_nfkd {a c : Char} (h : c ∈ nfkdChar a) : nfkdChar c = [c] := by
  by_cases h1 : (a == 'é') = true
  · rw [nfkdChar, if_pos h1] at h
    simp at h
    rcases h with rfl | rfl <;> decide
  · by_cases h2 : (a == 'à') = true
    · rw [nfkdChar, if_neg h1, if_pos h2] at h
      simp at h
      rcases h with rfl | rfl <;> decide
    · by_cases h3 : (a == '№') = true
      · rw [nfkdChar, if_neg h1, if_neg h2, if_pos h3] at h
        simp at h
        rcases h with rfl | rfl <;> decide
      · rw [nfkdChar, if_neg h1, if_neg h2, if_neg h3] at h
        simp at h
        subst h
        rw [nfkdChar, if_neg h1, if_neg h2, if_neg h3]

theorem normL_chars {c : Char} {l : List Char} (h : c ∈ normL l) :
    c = ' ' ∨ (isCombiningMark c = false ∧ ∃ a, c ∈ nfkdChar a) := by
  rw [normL] at h
  have h1 := mem_trimWs h
  rcases mem_collapseWsAux h1 with h2 | h2
  · exact Or.inl h2
  · right
    have h3 := List.mem_filter.mp h2
    refine ⟨by simpa using h3.2, ?_⟩
    obtain ⟨a, _, hc⟩ := List.mem_flatMap.mp h3.1
    exact ⟨a, hc⟩

theorem map_id_of {f : Char → Char} : ∀ {l : List Char},
    (∀ c ∈ l, f c = c) → l.map f = l := by
  intro l
  induction l with
  | nil => intro _; rfl
  | cons d rest ih =>
    intro h
    rw [List.map_cons, h d (List.mem_cons_self d rest),
      ih (fun c hc => h c (List.mem_cons_of_mem d hc))]

theorem flatMap_id_of : ∀ {l : List Char},
    (∀ c ∈ l, nfkdChar c = [c]) → l.flatMap nfkdChar = l := by
  intro l
  induction l with
  | nil => intro _; rfl
  | cons d rest ih =>
    intro h
    rw [List.flatMap_cons, h d (List.mem_cons_self d rest),
      ih (fun c hc => h c (List.mem_cons_of_mem d hc))]
    rfl

theorem normL_idem (l : List Char) (hlow : ∀ c ∈ normL l, charLower c = c) :
    normL (normL l) = normL l := by
  have hfix : ∀ c ∈ normL l, nfkdChar c = [c] := by
    intro c hc
    rcases normL_chars hc with h1 | h2
    · subst h1; rfl
    · exact nfkd_of_nfkd h2.2.choose_spec
  have hnomark : ∀ c ∈ normL l, (!(isCombiningMark c)) = true := by
    intro c hc
    rcases normL_chars hc with h1 | h2
    · subst h1; decide
    · simp [h2.1]
  have hspaces : spacesAreSpace (normL l) := by
    intro c hc hsp
    exact collapseWsAux_spacesAre _ false c (mem_trimWs hc) hsp
  have hnoadj0 : noAdjSpace (collapseWsAux false
      (((l.map charLower).flatMap nfkdChar).filter (fun c => !(isCombiningMark c)))) :=
    (collapseWsAux_noAdj _).1
  have hnoadj : noAdjSpace (normL l) := by
    rw [normL, trimWs, dropTrailingWs]
    exact noAdjSpace_reverse (dropWhileWs_noAdj (noAdjSpace_reverse
      (dropWhileWs_noAdj hnoadj0)))
  have hhead : headNotSpace (normL l) := by
    rw [normL, trimWs]
    exact dropTrailing_head (dropWhileWs_head _)
  have hrev : headNotSpace (normL l).reverse := by
    rw [normL, trimWs, dropTrailingWs, List.reverse_reverse]
    exact dropWhileWs_head _
  show trimWs (collapseWsAux false
    ((((normL l).map charLower).flatMap nfkdChar).filter (fun c => !(isCombiningMark c)))) =
    normL l
  rw [map_id_of hlow, flatMap_id_of hfix, List.filter_eq_self.mpr hnomark,
    (collapseWsAux_id (normL l) hspaces hnoadj).1, trimWs_id hhead hrev]

/-- C9 (amended): the normalizer is idempotent on every string whose
normalized form is fixed by lowercasing — in particular on all ASCII and
precomposed Latin text, with or without diacritics.  It is NOT idempotent
in general (see the counterexample): `norm` lowercases BEFORE the NFKD
decomposition, so a compatibility character whose decomposition contains
an uppercase letter (and which itself has no lowercase mapping) leaves an
uppercase letter that a second pass would lowercase. -/
theorem c9_norm_idempotent_amended :
    ∀ s : String, (∀ c ∈ (normStr s).data, charLower c = c) →
      normStr (normStr s) = normStr s := by
  intro s h
  exact congrArg String.mk (normL_idem s.data h)

/-- C9 witness: a concrete accented title, idempotent. -/
theorem c9_norm_idempotent_witness :
    (∀ c ∈ (normStr "  Pokémon  GRAAD 10 ").data, charLower c = c) ∧
    normStr (normStr "  Pokémon  GRAAD 10 ") = normStr "  Pokémon  GRAAD 10 " := by
  refine ⟨by decide, ?_⟩
  exact c9_norm_idempotent_amended "  Pokémon  GRAAD 10 " (by decide)

/-- C9 counterexample: U+2116 NUMERO SIGN has no lowercase mapping but its
NFKD decomposition is capital-N small-o, so one `norm` pass yields No and
a second pass yields no: `norm` is not idempotent on all Unicode input. -/
theorem c9_norm_not_idempotent_cex :
    normStr "№" = "No" ∧ normStr (normStr "№") = "no" ∧
    normStr (normStr "№") ≠ normStr "№" := by
  exact ⟨by decide, by decide, by decide⟩

/-! ## C5: dedup merge of the rolling window -/

theorem mergeFold_keys_mono :
    ∀ (news : List Sale) (st : List (String × JsNum × String × String) × List Sale)
      (k : String × JsNum × String × String),
      k ∈ st.1 → k ∈ (news.foldl mergeStep st).1 := by
  intro news
  induction news with
  | nil => intro st k hk; exact hk
  | cons s rest ih =>
    intro st k hk
    rw [List.foldl_cons]
    refine ih (mergeStep st s) k ?_
    rw [mergeStep]
    by_cases hs : saleKey s ∈ st.1
    · rw [if_pos hs]; exact hk
    · rw [if_neg hs]; exact List.mem_cons_of_mem _ hk

theorem mergeStep_keysEqv
    {st : List (String × JsNum × String × String) × List Sale}
    (h : ∀ k, k ∈ st.1 ↔ k ∈ st.2.map saleKey) (s : Sale) :
    ∀ k, k ∈ (mergeStep st s).1 ↔ k ∈ (mergeStep st s).2.map saleKey := by
  intro k
  rw [mergeStep]
  by_cases hs : saleKey s ∈ st.1
  · rw [if_pos hs]; exact h k
  · rw [if_neg hs]
    simp only [List.map_append, List.map_cons, List.map_nil, List.mem_append,
      List.mem_cons, List.not_mem_nil, or_false]
    constructor
    · intro hk
      rcases hk with rfl | hk
      · exact Or.inr rfl
      · exact Or.inl ((h k).mp hk)
    · intro hk
      rcases hk with hk | rfl
      · exact Or.inr ((h k).mpr hk)
      · exact Or.inl rfl

theorem mergeFold_keysEqv :
    ∀ (news : List Sale) (st : List (String × JsNum × String × String) × List Sale),
      (∀ k, k ∈ st.1 ↔ k ∈ st.2.map saleKey) →
      (∀ k, k ∈ (news.foldl mergeStep st).1 ↔
            k ∈ (news.foldl mergeStep st).2.map saleKey) := by
  intro news
  induction news with
  | nil => intro st h; exact h
  | cons s rest ih =>
    intro st h
    rw [List.foldl_cons]
    exact ih (mergeStep st s) (mergeStep_keysEqv h s)

theorem mergeFold_news_keys :
    ∀ (news : List Sale) (st : List (String × JsNum × String × String) × List Sale)
      (s : Sale), s ∈ news → saleKey s ∈ (news.foldl mergeStep st).1 := by
  intro news
  induction news with
  | nil => intro st s hs; simp at hs
  | cons s0 rest ih =>
    intro st s hs
    rw [List.foldl_cons]
    rcases List.mem_cons.mp hs with rfl | hmem
    · refine mergeFold_keys_mono rest (mergeStep st s) (saleKey s) ?_
      rw [mergeStep]
      by_cases h0 : saleKey s ∈ st.1
      · rw [if_pos h0]; exact h0
      · rw [if_neg h0]; exact List.mem_cons_self _ _
    · exact ih (mergeStep st s0) s hmem

theorem mergeFold_id :
    ∀ (news : List Sale) (st : List (String × JsNum × String × String) × List Sale),
      (∀ s ∈ news, saleKey s ∈ st.1) → news.foldl mergeStep st = st := by
  intro news
  induction news with
  | nil => intro st _; rfl
  | cons s rest ih =>
    intro st h
    rw [List.foldl_cons, mergeStep, if_pos (h s (List.mem_cons_self s rest))]
    exact ih st (fun x hx => h x (List.mem_cons_of_mem s hx))

theorem mergeFold_mem :
    ∀ (news : List Sale) (st : List (String × JsNum × String × String) × List Sale)
      (s : Sale), s ∈ (news.foldl mergeStep st).2 → s ∈ st.2 ∨ s ∈ news := by
  intro news
  induction news with
  | nil => intro st s h; exact Or.inl h
  | cons s0 rest ih =>
    intro st s h
    rw [List.foldl_cons] at h
    rcases ih (mergeStep st s0) s h with hin | hin
    · rw [mergeStep] at hin
      by_cases h0 : saleKey s0 ∈ st.1
      · rw [if_pos h0] at hin
        exact Or.inl hin
      · rw [if_neg h0] at hin
        simp only [List.mem_append, List.mem_singleton] at hin
        rcases hin with hin | rfl
        · exact Or.inl hin
        · exact Or.inr (List.mem_cons_self _ _)
    · exact Or.inr (List.mem_cons_of_mem s0 hin)

/-- C5: merging is deduplicating and idempotent.  A new sale whose
composite (url, priceEur, cardId, bucket) key already occurs in the
retained list is not added, and re-merging the same batch of new sales
changes nothing — so a second run observing the same listings does not
grow any (cardId, bucket) group. -/
theorem c5_merge_dedup_idempotent :
    ∀ (kept news : List Sale) (s : Sale),
      (saleKey s ∈ kept.map saleKey → mergeSales kept [s] = kept) ∧
      mergeSales (mergeSales kept news) news = mergeSales kept news := by
  intro kept news s
  constructor
  · intro hk
    rw [mergeSales, List.foldl_cons, mergeStep, if_pos hk, List.foldl_nil]
  · have heqv : ∀ k, k ∈ (news.foldl mergeStep (kept.map saleKey, kept)).1 ↔
        k ∈ (news.foldl mergeStep (kept.map saleKey, kept)).2.map saleKey :=
      mergeFold_keysEqv news (kept.map saleKey, kept) (fun k => Iff.rfl)
    have hall : ∀ x ∈ news,
        saleKey x ∈ (mergeSales kept news).map saleKey := by
      intro x hx
      exact (heqv (saleKey x)).mp
        (mergeFold_news_keys news (kept.map saleKey, kept) x hx)
    rw [mergeSales]
    rw [mergeFold_id news ((mergeSales kept news).map saleKey, mergeSales kept news)
      (fun x hx => hall x hx)]

/-- C5 witness: a sale already retained is not re-added, and re-merging is
a fixed point, at concrete inputs. -/
theorem c5_merge_witness :
    (saleKey ghostSale ∈ [ghostSale].map saleKey →
      mergeSales [ghostSale] [ghostSale] = [ghostSale]) ∧
    mergeSales (mergeSales [ghostSale] [ghostSale]) [ghostSale] =
      mergeSales [ghostSale] [ghostSale] :=
  c5_merge_dedup_idempotent [ghostSale] [ghostSale] ghostSale

example : mergeSales [ghostSale] [ghostSale] = [ghostSale] := by decide

/-! ## C10: fetch retry policy -/

theorem fetchGo_le {α : Type} (f : ℕ → FetchOutcome α) (retries : ℕ) :
    ∀ (fuel i : ℕ), (fetchGo f retries fuel i).2 ≤ i + fuel := by
  intro fuel
  induction fuel with
  | zero =>
    intro i
    show i ≤ i + 0
    omega
  | succ fuel ih =>
    intro i
    cases hfi : f i with
    | netError =>
      simp only [fetchGo, hfi]
      by_cases hir : i < retries
      · rw [if_pos hir]
        have := ih (i + 1)
        omega
      · rw [if_neg hir]
        show i + 1 ≤ i + (fuel + 1)
        omega
    | resp s b =>
      cases b with
      | some j =>
        simp only [fetchGo, hfi]
        by_cases hok : isOkStatus s = true
        · rw [if_pos hok]
          show i + 1 ≤ i + (fuel + 1)
          omega
        · rw [if_neg hok]
          by_cases hr : (s = 429 ∨ 500 ≤ s) ∧ i < retries
          · rw [if_pos hr]
            have := ih (i + 1)
            omega
          · rw [if_neg hr]
            show i + 1 ≤ i + (fuel + 1)
            omega
      | none =>
        simp only [fetchGo, hfi]
        by_cases hok : isOkStatus s = true
        · rw [if_pos hok]
          by_cases hir : i < retries
          · rw [if_pos hir]
            have := ih (i + 1)
            omega
          · rw [if_neg hir]
            show i + 1 ≤ i + (fuel + 1)
            omega
        · rw [if_neg hok]
          by_cases hr : (s = 429 ∨ 500 ≤ s) ∧ i < retries
          · rw [if_pos hr]
            have := ih (i + 1)
            omega
          · rw [if_neg hr]
            show i + 1 ≤ i + (fuel + 1)
            omega

theorem fetchGo_trigger {α : Type} (f : ℕ → FetchOutcome α) (retries : ℕ) :
    ∀ (fuel i k : ℕ), i ≤ k → k + 1 < (fetchGo f retries fuel i).2 →
      retryTrigger (f k) = true := by
  intro fuel
  induction fuel with
  | zero =>
    intro i k hik h
    have h2 : k + 1 < i := h
    omega
  | succ fuel ih =>
    intro i k hik h
    cases hfi : f i with
    | netError =>
      simp only [fetchGo, hfi] at h
      by_cases hir : i < retries
      · rw [if_pos hir] at h
        rcases Nat.lt_or_ge i k with hlt | hge
        · exact ih (i + 1) k (by omega) h
        · have hk : k = i := by omega
          rw [hk, hfi]
          rfl
      · rw [if_neg hir] at h
        have h2 : k + 1 < i + 1 := h
        omega
    | resp s b =>
      cases b with
      | some j =>
        simp only [fetchGo, hfi] at h
        by_cases hok : isOkStatus s = true
        · rw [if_pos hok] at h
          have h2 : k + 1 < i + 1 := h
          omega
        · rw [if_neg hok] at h
          by_cases hr : (s = 429 ∨ 500 ≤ s) ∧ i < retries
          · rw [if_pos hr] at h
            rcases Nat.lt_or_ge i k with hlt | hge
            · exact ih (i + 1) k (by omega) h
            · have hk : k = i := by omega
              rw [hk, hfi]
              rcases hr.1 with h429 | h5
              · simp [retryTrigger, h429]
              · simp [retryTrigger, h5]
          · rw [if_neg hr] at h
            have h2 : k + 1 < i + 1 := h
            omega
      | none =>
        simp only [fetchGo, hfi] at h
        by_cases hok : isOkStatus s = true
        · rw [if_pos hok] at h
          by_cases hir : i < retries
          · rw [if_pos hir] at h
            rcases Nat.lt_or_ge i k with hlt | hge
            · exact ih (i + 1) k (by omega) h
            · have hk : k = i := by omega
              rw [hk, hfi]
              simp [retryTrigger, hok]
          · rw [if_neg hir] at h
            have h2 : k + 1 < i + 1 := h
            omega
        · rw [if_neg hok] at h
          by_cases hr : (s = 429 ∨ 500 ≤ s) ∧ i < retries
          · rw [if_pos hr] at h
            rcases Nat.lt_or_ge i k with hlt | hge
            · exact ih (i + 1) k (by omega) h
            · have hk : k = i := by omega
              rw [hk, hfi]
              rcases hr.1 with h429 | h5
              · simp [retryTrigger, h429]
              · simp [retryTrigger, h5]
          · rw [if_neg hr] at h
            have h2 : k + 1 < i + 1 := h
            omega

theorem fetchGo_stop {α : Type} (f : ℕ → FetchOutcome α) (retries : ℕ) :
    ∀ (fuel i k : ℕ) (s : ℕ) (b : Option α), i ≤ k →
      k < (fetchGo f retries fuel i).2 →
      f k = FetchOutcome.resp s b → isOkStatus s = false → s ≠ 429 → s < 500 →
      fetchGo f retries fuel i = (none, k + 1) := by
  intro fuel
  induction fuel with
  | zero =>
    intro i k s b hik h hfk hok h429 h500
    have h2 : k < i := h
    omega
  | succ fuel ih =>
    intro i k s b hik h hfk hok h429 h500
    rcases Nat.lt_or_ge i k with hlt | hge
    · cases hfi : f i with
      | netError =>
        simp only [fetchGo, hfi] at h ⊢
        by_cases hir : i < retries
        · rw [if_pos hir] at h ⊢
          exact ih (i + 1) k s b (by omega) h hfk hok h429 h500
        · rw [if_neg hir] at h
          have h2 : k < i + 1 := h
          omega
      | resp s0 b0 =>
        cases b0 with
        | some j =>
          simp only [fetchGo, hfi] at h ⊢
          by_cases hok0 : isOkStatus s0 = true
          · rw [if_pos hok0] at h
            have h2 : k < i + 1 := h
            omega
          · rw [if_neg hok0] at h ⊢
            by_cases hr : (s0 = 429 ∨ 500 ≤ s0) ∧ i < retries
            · rw [if_pos hr] at h ⊢
              exact ih (i + 1) k s b (by omega) h hfk hok h429 h500
            · rw [if_neg hr] at h
              have h2 : k < i + 1 := h
              omega
        | none =>
          simp only [fetchGo, hfi] at h ⊢
          by_cases hok0 : isOkStatus s0 = true
          · rw [if_pos hok0] at h ⊢
            by_cases hir : i < retries
            · rw [if_pos hir] at h ⊢
              exact ih (i + 1) k s b (by omega) h hfk hok h429 h500
            · rw [if_neg hir] at h
              have h2 : k < i + 1 := h
              omega
          · rw [if_neg hok0] at h ⊢
            by_cases hr : (s0 = 429 ∨ 500 ≤ s0) ∧ i < retries
            · rw [if_pos hr] at h ⊢
              exact ih (i + 1) k s b (by omega) h hfk hok h429 h500
            · rw [if_neg hr] at h
              have h2 : k < i + 1 := h
              omega
    · have hk : k = i := by omega
      subst hk
      simp only [fetchGo, hfk]
      rw [if_neg (by simp [hok])]
      rw [if_neg (by intro hc; rcases hc.1 with h1 | h2; exacts [h429 h1, absurd h2 (by omega)])]

/-- C10 (amended): the fetchers are total (they return an optional payload,
never an exception), perform at most retries+1 attempts (at most 4
retries at the default call sites), every retried attempt was a network
failure, HTTP 429, HTTP 5xx, OR a successful status whose body
read/parse failed (this last case is the amendment: the body is read
inside the try block, so its failure is caught and retried), and any
other non-success status stops the loop immediately with a null result. -/
theorem c10_retry_policy_amended {α : Type} (f : ℕ → FetchOutcome α) (retries : ℕ) :
    (fetchWithRetries f retries).2 ≤ retries + 1 ∧
    (∀ i, i + 1 < (fetchWithRetries f retries).2 → retryTrigger (f i) = true) ∧
    (∀ i s b, f i = FetchOutcome.resp s b → isOkStatus s = false → s ≠ 429 → s < 500 →
      i < (fetchWithRetries f retries).2 →
      (fetchWithRetries f retries).2 = i + 1 ∧ (fetchWithRetries f retries).1 = none) := by
  refine ⟨?_, ?_, ?_⟩
  · have := fetchGo_le f retries (retries + 1) 0
    simpa [fetchWithRetries] using this
  · intro i h
    exact fetchGo_trigger f retries (retries + 1) 0 i (Nat.zero_le i) h
  · intro i s b hfi hok h429 h500 hlt
    have := fetchGo_stop f retries (retries + 1) 0 i s b (Nat.zero_le i) hlt hfi hok h429 h500
    rw [fetchWithRetries, this]
    exact ⟨rfl, rfl⟩

/-- C10 witness: a permanent 404 produces exactly one attempt and null. -/
theorem c10_retry_policy_witness :
    (fetchWithRetries gC10 4).2 = 0 + 1 ∧ (fetchWithRetries gC10 4).1 = none :=
  (c10_retry_policy_amended gC10 4).2.2 0 404 none rfl (by decide) (by decide)
    (by decide) (by decide)

/-- C10 counterexample: an HTTP 200 response whose body fails to parse IS
retried (here the second attempt succeeds, and two attempts were
performed), although status 200 is not 429, not a 5xx, and not a network
failure — refuting the claim that those are the only retry conditions. -/
theorem c10_parse_retry_cex :
    fetchWithRetries fC10 4 = (some 7, 2) ∧
    fC10 0 = FetchOutcome.resp 200 none ∧
    (200 ≠ 429 ∧ ¬ 500 ≤ 200 ∧
      FetchOutcome.resp 200 (none : Option ℕ) ≠ FetchOutcome.netError) := by
  exact ⟨by decide, by decide, by decide, by decide, by decide⟩

/-! ## C7/C8: matcher confidence bounds and language consistency -/

theorem pickBest_mem : ∀ (l : List Card) (b : Card),
    pickBest l b = b ∨ pickBest l b ∈ l := by
  intro l
  induction l with
  | nil => intro b; exact Or.inl rfl
  | cons c rest ih =>
    intro b
    rw [pickBest, List.foldl_cons]
    have step : (if (c.imageLarge != "") && (b.imageLarge == "") then c else b) = c ∨
        (if (c.imageLarge != "") && (b.imageLarge == "") then c else b) = b := by
      by_cases hc : ((c.imageLarge != "") && (b.imageLarge == "")) = true
      · rw [if_pos hc]; exact Or.inl rfl
      · rw [if_neg hc]; exact Or.inr rfl
    rcases ih (if (c.imageLarge != "") && (b.imageLarge == "") then c else b) with h1 | h1
    · rw [pickBest] at h1
      rw [h1]
      rcases step with h2 | h2
      · rw [h2]; exact Or.inr (List.mem_cons_self c rest)
      · rw [h2]; exact Or.inl rfl
    · rw [pickBest] at h1
      exact Or.inr (List.mem_cons_of_mem c h1)

theorem nameOnlyFrom_card_mem {l : List Card} {sc fl : Option String} {c : Card}
    (h : (nameOnlyFrom l sc fl).card = some c) : c ∈ l := by
  cases l with
  | nil => exact absurd h (by simp [nameOnlyFrom])
  | cons b rest =>
    simp only [nameOnlyFrom, Option.some.injEq] at h
    subst h
    rcases pickBest_mem (b :: rest) b with h1 | h1
    · rw [h1]; exact List.mem_cons_self b rest
    · exact h1

theorem strictFrom_card_mem {b : Card} {rest : List Card} {fl : Option String} {c : Card}
    (h : (strictFrom b rest fl).card = some c) : c ∈ b :: rest := by
  simp only [strictFrom, Option.some.injEq] at h
  subst h
  rcases pickBest_mem (b :: rest) b with h1 | h1
  · rw [h1]; exact List.mem_cons_self b rest
  · exact h1

theorem looseFrom_card_mem {l : List Card} {sc fl : Option String} {c : Card}
    (h : (looseFrom l sc fl).card = some c) : c ∈ l := by
  cases l with
  | nil => exact absurd h (by simp [looseFrom])
  | cons b rest =>
    cases sc with
    | none =>
      simp only [looseFrom, Option.some.injEq] at h
      rcases pickBest_mem (b :: rest) b with h1 | h1
      · rw [← h, h1]; exact List.mem_cons_self b rest
      · rw [← h]; exact h1
    | some sc0 =>
      simp only [looseFrom, Option.some.injEq] at h
      cases hf : (b :: rest).find? (fun x =>
          ((normStr sc0).data.take 2).isPrefixOf (normStr x.setId).data) with
      | none =>
        rw [hf] at h
        have h2 : pickBest (b :: rest) b = c := h
        rcases pickBest_mem (b :: rest) b with h1 | h1
        · rw [← h2, h1]; exact List.mem_cons_self b rest
        · rw [← h2]; exact h1
      | some fam =>
        rw [hf] at h
        have h2 : pickBest (b :: rest) fam = c := h
        rcases pickBest_mem (b :: rest) fam with h1 | h1
        · rw [← h2, h1]
          exact List.mem_of_find?_eq_some hf
        · rw [← h2]; exact h1

/-- A detected language forces equality of the candidate language. -/
theorem langFilterOk_eq {l : String} {fl : Option String} {c : Card}
    (h : langFilterOk (some l) fl c = true) : c.lang = l := by
  simp only [langFilterOk, Bool.and_eq_true] at h
  exact eq_of_beq h.1

theorem byNamePred_lang {lang fl sc : Option String} {t : String} {c : Card}
    (h : byNamePred lang fl sc t c = true) : langFilterOk lang fl c = true := by
  simp only [byNamePred, Bool.and_eq_true] at h
  exact h.1.1

theorem strictPred_lang {lang fl sc : Option String} {lid t : String} {c : Card}
    (h : strictPred lang fl sc lid t c = true) : langFilterOk lang fl c = true := by
  simp only [strictPred, Bool.and_eq_true] at h
  exact h.1.1.1

theorem loosePred_lang {lang fl : Option String} {lid t : String} {c : Card}
    (h : loosePred lang fl lid t c = true) : langFilterOk lang fl c = true := by
  simp only [loosePred, Bool.and_eq_true] at h
  exact h.1.1

/-- Membership and language of any returned card, in every mode. -/
theorem bestMatch_card_props (cards : List Card) (title : String) (c : Card)
    (h : (bestMatchCard cards title).card = some c) :
    c ∈ cards ∧
    langFilterOk (detectLangFromTitle (normStr title))
      (match detectLangFromTitle (normStr title) with
       | some l => some l
       | none => inferLangFromSetCode (extractSetCode title)) c = true := by
  by_cases hlot : isLikelyLot (normStr title) = true
  · simp only [bestMatchCard, if_pos hlot] at h
    exact absurd h (by simp)
  · simp only [bestMatchCard, if_neg hlot] at h
    cases hloc : extractLocalId title with
    | none =>
      simp only [hloc] at h
      have hmem := nameOnlyFrom_card_mem h
      have hf := List.mem_filter.mp hmem
      exact ⟨hf.1, byNamePred_lang hf.2⟩
    | some lid =>
      simp only [hloc] at h
      cases hstrict : cards.filter (strictPred (detectLangFromTitle (normStr title))
          (match detectLangFromTitle (normStr title) with
           | some l => some l
           | none => inferLangFromSetCode (extractSetCode title))
          (extractSetCode title) lid (normStr title)) with
      | cons b rest =>
        simp only [hstrict] at h
        have hmem := strictFrom_card_mem h
        rw [← hstrict] at hmem
        have hf := List.mem_filter.mp hmem
        exact ⟨hf.1, strictPred_lang hf.2⟩
      | nil =>
        simp only [hstrict] at h
        have hmem := looseFrom_card_mem h
        have hf := List.mem_filter.mp hmem
        exact ⟨hf.1, loosePred_lang hf.2⟩

/-- C8: in every mode (name-only, strict, loose) the candidate filters
require the catalog language to equal an explicitly detected title
language, so the matcher never returns a card of the other language. -/
theorem c8_lang_consistent :
    ∀ (cards : List Card) (title : String) (c : Card) (l : String),
      detectLangFromTitle (normStr title) = some l →
      (bestMatchCard cards title).card = some c → c.lang = l := by
  intro cards title c l hl h
  have hp := (bestMatch_card_props cards title c h).2
  rw [hl] at hp
  exact langFilterOk_eq hp

/-- C8 witness: a Japanese-tagged title only matches the ja printing. -/
theorem c8_lang_witness :
    detectLangFromTitle (normStr "Pikachu jap") = some "ja" ∧
    (bestMatchCard [cardPikaJa] "Pikachu jap").card = some cardPikaJa ∧
    cardPikaJa.lang = "ja" := by
  refine ⟨by decide, by decide, ?_⟩
  exact c8_lang_consistent [cardPikaJa] "Pikachu jap" cardPikaJa "ja"
    (by decide) (by decide)

theorem nameOnlyFrom_conf (l : List Card) (sc fl : Option String) :
    ((nameOnlyFrom l sc fl).card ≠ none →
      72 ≤ (nameOnlyFrom l sc fl).confidence ∧ (nameOnlyFrom l sc fl).confidence ≤ 100) ∧
    ((nameOnlyFrom l sc fl).mode = some "name_only" →
      72 ≤ (nameOnlyFrom l sc fl).confidence ∧ (nameOnlyFrom l sc fl).confidence ≤ 82) ∧
    ((nameOnlyFrom l sc fl).card = none → (nameOnlyFrom l sc fl).confidence = 0) := by
  cases l with
  | nil => simp [nameOnlyFrom]
  | cons b rest =>
    rcases sc with _ | sc0 <;> rcases fl with _ | fl0 <;>
      simp [nameOnlyFrom]

theorem strictFrom_conf (b : Card) (rest : List Card) (fl : Option String) :
    ((strictFrom b rest fl).card ≠ none →
      72 ≤ (strictFrom b rest fl).confidence ∧ (strictFrom b rest fl).confidence ≤ 100) ∧
    ((strictFrom b rest fl).mode = some "name_only" →
      72 ≤ (strictFrom b rest fl).confidence ∧ (strictFrom b rest fl).confidence ≤ 82) ∧
    ((strictFrom b rest fl).card = none → (strictFrom b rest fl).confidence = 0) := by
  rcases fl with _ | fl0 <;> simp [strictFrom]

theorem looseFrom_conf (l : List Card) (sc fl : Option String) :
    ((looseFrom l sc fl).card ≠ none →
      72 ≤ (looseFrom l sc fl).confidence ∧ (looseFrom l sc fl).confidence ≤ 100) ∧
    ((looseFrom l sc fl).mode = some "name_only" →
      72 ≤ (looseFrom l sc fl).confidence ∧ (looseFrom l sc fl).confidence ≤ 82) ∧
    ((looseFrom l sc fl).card = none → (looseFrom l sc fl).confidence = 0) := by
  cases l with
  | nil => simp [looseFrom]
  | cons b rest =>
    rcases sc with _ | sc0 <;> rcases fl with _ | fl0 <;>
      simp [looseFrom]

/-- C7: whenever the matcher returns a card, the confidence (in
hundredths) is between 72 and 100, so every returned card meets the 0.72
acceptance threshold; name-only results are additionally capped at 82;
and a null card always comes with confidence exactly 0. -/
theorem c7_confidence_bounds :
    ∀ (cards : List Card) (title : String),
      ((bestMatchCard cards title).card ≠ none →
        72 ≤ (bestMatchCard cards title).confidence ∧
        (bestMatchCard cards title).confidence ≤ 100) ∧
      ((bestMatchCard cards title).mode = some "name_only" →
        72 ≤ (bestMatchCard cards title).confidence ∧
        (bestMatchCard cards title).confidence ≤ 82) ∧
      ((bestMatchCard cards title).card = none →
        (bestMatchCard cards title).confidence = 0) := by
  intro cards title
  by_cases hlot : isLikelyLot (normStr title) = true
  · simp [bestMatchCard, hlot]
  · simp only [bestMatchCard, if_neg hlot]
    cases hloc : extractLocalId title with
    | none =>
      simp only [hloc]
      exact nameOnlyFrom_conf _ _ _
    | some lid =>
      simp only [hloc]
      cases hstrict : cards.filter (strictPred (detectLangFromTitle (normStr title))
          (match detectLangFromTitle (normStr title) with
           | some l => some l
           | none => inferLangFromSetCode (extractSetCode title))
          (extractSetCode title) lid (normStr title)) with
      | cons b rest =>
        simp only [hstrict]
        exact strictFrom_conf _ _ _
      | nil =>
        simp only [hstrict]
        exact looseFrom_conf _ _ _

/-- C7 witness: a concrete name-only match with confidence 75. -/
theorem c7_confidence_witness :
    72 ≤ (bestMatchCard [cardPikaJa] "Pikachu jap").confidence ∧
    (bestMatchCard [cardPikaJa] "Pikachu jap").confidence ≤ 100 :=
  (c7_confidence_bounds [cardPikaJa] "Pikachu jap").1 (by decide)

/-! ## C1/C2: emitted sale shape, bucket membership, window and references -/

theorem bucketOfG2_range (g : ℕ) :
    bucketOfG2 g ∈ ["graad_10", "graad_9_5", "graad_9", "graad_8", "graad_7",
      "graad_unknown"] := by
  rw [bucketOfG2]
  split_ifs <;> simp

theorem detectGraadBucket_range (title : String) (b : String)
    (h : detectGraadBucket title = some b) :
    b ∈ ["graad_10", "graad_9_5", "graad_9", "graad_8", "graad_7",
      "graad_unknown"] := by
  by_cases hcon : containsSub (normStr title).data "graad".data = true
  · simp only [detectGraadBucket, hcon] at h
    cases hg : firstGraadGrade (normStr title).data with
    | none =>
      simp [hg] at h
      subst h
      simp
    | some g =>
      simp [hg] at h
      subst h
      exact bucketOfG2_range g
  · simp [detectGraadBucket, hcon] at h

/-- Shape of any accepted sale: `collectedAt` is the run instant,
`cardId` is the id of the matched card, and the bucket is raw or exactly
the classified bucket. -/
theorem acceptSale_shape (g : Bool) (ca : ℤ) (it : Item) (bucket : Option String)
    (m : MatchResult) (s : Sale) (h : acceptSale g ca it bucket m = some s) :
    (s.collectedAt = ca ∧ ∃ card, m.card = some card ∧ s.cardId = card.id) ∧
    (s.bucket = "raw" ∨ bucket = some s.bucket) := by
  cases bucket with
  | none =>
    simp only [acceptSale] at h
    cases g with
    | true => exact Option.noConfusion (h : (none : Option Sale) = some s)
    | false =>
      cases hm : m.card with
      | none =>
        rw [hm] at h
        exact Option.noConfusion (h : (none : Option Sale) = some s)
      | some card =>
        rw [hm] at h
        by_cases hc : m.confidence < 72
        · have h3 : (if m.confidence < 72 then none
              else some { collectedAt := ca, source := "ebay.it", title := it.title,
                          url := it.url, price_eur := it.price_eur, cardId := card.id,
                          bucket := "raw" }) = some s := h
          rw [if_pos hc] at h3
          exact Option.noConfusion h3
        · have h3 : (if m.confidence < 72 then none
              else some { collectedAt := ca, source := "ebay.it", title := it.title,
                          url := it.url, price_eur := it.price_eur, cardId := card.id,
                          bucket := "raw" }) = some s := h
          rw [if_neg hc] at h3
          injection h3 with h4
          subst h4
          exact ⟨⟨rfl, card, rfl, rfl⟩, Or.inl rfl⟩
  | some b0 =>
    simp only [acceptSale] at h
    by_cases hsw : strStartsWith b0 "graad_" = true
    · rw [hsw, Bool.not_true, Bool.and_false] at h
      cases hm : m.card with
      | none =>
        rw [hm] at h
        exact Option.noConfusion (h : (none : Option Sale) = some s)
      | some card =>
        rw [hm] at h
        by_cases hc : m.confidence < 72
        · have h3 : (if m.confidence < 72 then none
              else some { collectedAt := ca, source := "ebay.it", title := it.title,
                          url := it.url, price_eur := it.price_eur, cardId := card.id,
                          bucket := b0 }) = some s := h
          rw [if_pos hc] at h3
          exact Option.noConfusion h3
        · have h3 : (if m.confidence < 72 then none
              else some { collectedAt := ca, source := "ebay.it", title := it.title,
                          url := it.url, price_eur := it.price_eur, cardId := card.id,
                          bucket := b0 }) = some s := h
          rw [if_neg hc] at h3
          injection h3 with h4
          subst h4
          exact ⟨⟨rfl, card, rfl, rfl⟩, Or.inr rfl⟩
    · have hswf : strStartsWith b0 "graad_" = false := by simpa using hsw
      rw [hswf, Bool.not_false, Bool.and_true] at h
      cases g with
      | true =>
        rw [if_pos rfl] at h
        exact Option.noConfusion h
      | false =>
        cases hm : m.card with
        | none =>
          rw [hm] at h
          exact Option.noConfusion (h : (none : Option Sale) = some s)
        | some card =>
          rw [hm] at h
          by_cases hc : m.confidence < 72
          · have h3 : (if m.confidence < 72 then none
                else some { collectedAt := ca, source := "ebay.it", title := it.title,
                            url := it.url, price_eur := it.price_eur, cardId := card.id,
                            bucket := "raw" }) = some s := h
            rw [if_pos hc] at h3
            exact Option.noConfusion h3
          · have h3 : (if m.confidence < 72 then none
                else some { collectedAt := ca, source := "ebay.it", title := it.title,
                            url := it.url, price_eur := it.price_eur, cardId := card.id,
                            bucket := "raw" }) = some s := h
            rw [if_neg hc] at h3
            injection h3 with h4
            subst h4
            exact ⟨⟨rfl, card, rfl, rfl⟩, Or.inl rfl⟩

/-- Every sale emitted by the collection loop: its `collectedAt` is the
run instant, its `cardId` is the id of the matched card, and its bucket
is raw or exactly the detected grading bucket. -/
theorem collectItem_shape (g : Bool) (ca : ℤ) (cards : List Card) (it : Item)
    (s : Sale) (h : collectItem g ca cards it = some s) :
    (s.collectedAt = ca ∧
      ∃ card, (bestMatchCard cards it.title).card = some card ∧ s.cardId = card.id) ∧
    (s.bucket = "raw" ∨ detectGraadBucket it.title = some s.bucket) := by
  by_cases hlot : isLikelyLot it.title = true
  · simp only [collectItem, if_pos hlot] at h
    exact Option.noConfusion h
  · simp only [collectItem, if_neg hlot] at h
    have := acceptSale_shape g ca it (detectGraadBucket it.title)
      (bestMatchCard cards it.title) s h
    exact ⟨this.1, this.2⟩

/-- C1 (amended): every Sale the collector emits has bucket raw, one of
the five graded tiers, OR graad_unknown.  A graded listing whose grade
cannot be determined is NOT dropped: graad_unknown starts with the
graad prefix, so it counts as graded for the gradedOnly filter and is
emitted (and persisted to sales_30d.json) with bucket graad_unknown;
only the price aggregation ignores that bucket. -/
theorem c1_bucket_membership_amended :
    ∀ (gradedOnly : Bool) (collectedAt : ℤ) (cards : List Card) (it : Item) (s : Sale),
      collectItem gradedOnly collectedAt cards it = some s →
      s.bucket ∈ ["raw", "graad_7", "graad_8", "graad_9", "graad_9_5", "graad_10",
        "graad_unknown"] := by
  intro g ca cards it s h
  rcases (collectItem_shape g ca cards it s h).2 with hr | hd
  · rw [hr]; simp
  · have hrange := detectGraadBucket_range it.title s.bucket hd
    simp only [List.mem_cons, List.not_mem_nil, or_false] at hrange ⊢
    tauto

/-- C1 witness: the unknown-grade listing is emitted and its bucket is in
the seven-element range. -/
theorem c1_bucket_membership_witness :
    collectItem true 0 [cardEevee] itemUnknownGrade = some saleUnknownGrade ∧
    saleUnknownGrade.bucket ∈ ["raw", "graad_7", "graad_8", "graad_9", "graad_9_5",
      "graad_10", "graad_unknown"] :=
  ⟨by decide, c1_bucket_membership_amended true 0 [cardEevee] itemUnknownGrade
    saleUnknownGrade (by decide)⟩

/-- C1 counterexample: a graded-only query item with an undetermined grade
(graad 1) is emitted as a Sale with bucket graad_unknown, which is not
one of the six claimed buckets — the listing is neither dropped nor
restricted to the six canonical buckets. -/
theorem c1_unknown_bucket_emitted_cex :
    collectItem true 0 [cardEevee] itemUnknownGrade = some saleUnknownGrade ∧
    saleUnknownGrade.bucket = "graad_unknown" ∧
    saleUnknownGrade.bucket ∉ ["raw", "graad_7", "graad_8", "graad_9", "graad_9_5",
      "graad_10"] := by
  exact ⟨by decide, by decide, by decide⟩

/-- C2 (amended): after the sales phase, every written Sale has
collectedAt within the 30-day window, and every Sale that was NOT loaded
from the previous file (i.e. was collected in this run) references a card
of the current catalog.  Sales loaded from the previous run are only
pruned by date — their cardIds are not revalidated against the rebuilt
catalog and may dangle. -/
theorem c2_window_and_new_cardids_amended :
    ∀ (cards : List Card) (oldSales : List Sale) (now : ℤ)
      (items : List (Bool × Item)) (s : Sale),
      s ∈ runSalesPhase cards oldSales now items →
      now - 30 * 24 * 3600 * 1000 ≤ s.collectedAt ∧
      (s ∈ oldSales ∨ s.cardId ∈ cards.map Card.id) := by
  intro cards old now items s hs
  simp only [runSalesPhase, mergeSales] at hs
  have hmem := mergeFold_mem _ _ s hs
  rcases hmem with hk | hn
  · have hf := List.mem_filter.mp hk
    exact ⟨of_decide_eq_true hf.2, Or.inl hf.1⟩
  · obtain ⟨gi, _, hcol⟩ := List.mem_filterMap.mp hn
    obtain ⟨⟨hca, card, hcard, hid⟩, _⟩ := collectItem_shape gi.1 now cards gi.2 s hcol
    constructor
    · rw [hca]; omega
    · right
      rw [hid]
      exact List.mem_map_of_mem Card.id (bestMatch_card_props cards gi.2.title card hcard).1

/-- C2 witness: at concrete inputs, the two conclusions hold. -/
theorem c2_window_witness :
    (0 : ℤ) - 30 * 24 * 3600 * 1000 ≤ ghostSale.collectedAt ∧
    (ghostSale ∈ [ghostSale] ∨ ghostSale.cardId ∈ [cardEevee].map Card.id) :=
  c2_window_and_new_cardids_amended [cardEevee] [ghostSale] 0 [] ghostSale (by decide)

/-- C2 counterexample: a sale loaded from the previous run whose card no
longer exists in the rebuilt catalog survives pruning and is written back
with a dangling cardId, refuting the claim that every written Sale
references a card of catalog.json. -/
theorem c2_dangling_cardid_cex :
    runSalesPhase [cardEevee] [ghostSale] 0 [] = [ghostSale] ∧
    ghostSale.cardId ∉ [cardEevee].map Card.id := by
  exact ⟨by decide, by decide⟩

/-! ## C6: aggregation counts and medians -/

theorem findA_append_self {α : Type} (m : List (String × α)) (k : String) (v : α)
    (h : findA m k = none) : findA (m ++ [(k, v)]) k = some v := by
  induction m with
  | nil => simp [findA]
  | cons p rest ih =>
    obtain ⟨k0, v0⟩ := p
    by_cases h0 : k0 = k
    · rw [findA, if_pos h0] at h
      exact Option.noConfusion h
    · rw [findA, if_neg h0] at h
      rw [List.cons_append, findA, if_neg h0]
      exact ih h

theorem findA_append_other {α : Type} (m : List (String × α)) (k : String) (v : α)
    (cid : String) (h : k ≠ cid) : findA (m ++ [(k, v)]) cid = findA m cid := by
  induction m with
  | nil => simp [findA, h]
  | cons p rest ih =>
    obtain ⟨k0, v0⟩ := p
    rw [List.cons_append, findA, findA]
    by_cases h0 : k0 = cid
    · rw [if_pos h0, if_pos h0]
    · rw [if_neg h0, if_neg h0]
      exact ih

theorem findA_updateA_self {α : Type} (m : List (String × α)) (key : String)
    (nv : α) (b : α) (h : findA m key = some b) :
    findA (updateA m key nv) key = some nv := by
  induction m with
  | nil => simp [findA] at h
  | cons p rest ih =>
    obtain ⟨k0, v0⟩ := p
    by_cases h0 : k0 = key
    · simp [findA, updateA, h0]
    · rw [findA, if_neg h0] at h
      rw [updateA, if_neg h0, findA, if_neg h0]
      exact ih h

theorem findA_updateA_other {α : Type} (m : List (String × α)) (key : String)
    (nv : α) (cid : String) (h : key ≠ cid) :
    findA (updateA m key nv) cid = findA m cid := by
  induction m with
  | nil => rfl
  | cons p rest ih =>
    obtain ⟨k0, v0⟩ := p
    by_cases h0 : k0 = key
    · subst h0
      rw [updateA, if_pos rfl, findA, if_neg h, findA, if_neg h]
    · rw [updateA, if_neg h0, findA, findA]
      by_cases h1 : k0 = cid
      · rw [if_pos h1, if_pos h1]
      · rw [if_neg h1, if_neg h1]
        exact ih

theorem getD_emptyBuckets (bname : String) (hb : bname ∈ bucketNames) :
    (getBucketArr emptyBuckets bname).getD [] = [] := by
  fin_cases hb <;> decide

theorem getD_pushBucket (b : Buckets) (name : String) (p : JsNum) (bname : String)
    (hb : bname ∈ bucketNames) :
    (getBucketArr (pushBucket b name p) bname).getD [] =
    (getBucketArr b bname).getD [] ++ (if name = bname then [p] else []) := by
  fin_cases hb <;>
    (simp only [pushBucket] ; split_ifs <;> simp_all [getBucketArr])

theorem stepByCard_field (m : List (String × Buckets)) (s : Sale) (cid bname : String)
    (hb : bname ∈ bucketNames) :
    bucketsField (findA (stepByCard m s) cid) bname =
    bucketsField (findA m cid) bname ++
      (if s.cardId = cid ∧ s.bucket = bname then [s.price_eur] else []) := by
  simp only [stepByCard]
  cases hfind : findA m s.cardId with
  | none =>
    by_cases hcid : s.cardId = cid
    · subst hcid
      rw [findA_append_self m s.cardId _ hfind, hfind]
      simp only [bucketsField]
      rw [getD_pushBucket _ _ _ _ hb, getD_emptyBuckets _ hb]
      by_cases hbk : s.bucket = bname <;> simp [hbk]
    · rw [findA_append_other m s.cardId _ cid hcid,
        if_neg (fun hc => hcid hc.1), List.append_nil]
  | some b =>
    by_cases hcid : s.cardId = cid
    · subst hcid
      rw [findA_updateA_self m s.cardId _ b hfind, hfind]
      simp only [bucketsField]
      rw [getD_pushBucket _ _ _ _ hb]
      by_cases hbk : s.bucket = bname <;> simp [hbk]
    · rw [findA_updateA_other m s.cardId _ cid hcid,
        if_neg (fun hc => hcid hc.1), List.append_nil]

theorem buildByCard_field :
    ∀ (l : List Sale) (m : List (String × Buckets)) (cid bname : String),
      bname ∈ bucketNames →
      bucketsField (findA (l.foldl stepByCard m) cid) bname =
      bucketsField (findA m cid) bname ++
        (l.filter (fun s => s.cardId == cid && s.bucket == bname)).map Sale.price_eur := by
  intro l
  induction l with
  | nil => intro m cid bname _; simp
  | cons s rest ih =>
    intro m cid bname hb
    rw [List.foldl_cons, ih (stepByCard m s) cid bname hb,
      stepByCard_field m s cid bname hb, List.append_assoc, List.filter_cons]
    by_cases hcond : (s.cardId == cid && s.bucket == bname) = true
    · have hc2 : s.cardId = cid ∧ s.bucket = bname := by
        simp only [Bool.and_eq_true, beq_iff_eq] at hcond
        exact hcond
      simp [hcond, hc2]
    · have hcf : (s.cardId == cid && s.bucket == bname) = false := by
        simpa using hcond
      have hc2 : ¬(s.cardId = cid ∧ s.bucket = bname) := by
        intro hc
        apply hcond
        simp only [Bool.and_eq_true, beq_iff_eq]
        exact hc
      simp [hcf, hc2]

theorem findA_map {α : Type} (m : List (String × Buckets)) (f : Buckets → α)
    (cid : String) :
    findA (m.map (fun p => (p.1, f p.2))) cid = (findA m cid).map f := by
  induction m with
  | nil => rfl
  | cons p rest ih =>
    obtain ⟨k0, v0⟩ := p
    by_cases h0 : k0 = cid
    · simp [findA, h0]
    · simp [findA, h0, ih]

theorem findA_aggregateEntries (b : Buckets) (bname : String) (x : Option ℚ × ℕ)
    (h : findA (aggregateEntries b) bname = some x) :
    bname ∈ bucketNames ∧
    x = (median ((getBucketArr b bname).getD []),
         ((getBucketArr b bname).getD []).length) := by
  simp only [aggregateEntries, findA] at h
  split_ifs at h with h1 h2 h3 h4 h5 h6
  · subst h1
    refine ⟨by decide, ?_⟩
    injection h with h0
    simp [getBucketArr, ← h0]
  · subst h2
    refine ⟨by decide, ?_⟩
    injection h with h0
    simp [getBucketArr, ← h0]
  · subst h3
    refine ⟨by decide, ?_⟩
    injection h with h0
    simp [getBucketArr, ← h0]
  · subst h4
    refine ⟨by decide, ?_⟩
    injection h with h0
    simp [getBucketArr, ← h0]
  · subst h5
    refine ⟨by decide, ?_⟩
    injection h with h0
    simp [getBucketArr, ← h0]
  · subst h6
    refine ⟨by decide, ?_⟩
    injection h with h0
    simp [getBucketArr, ← h0]

theorem length_insertSorted (x : ℚ) :
    ∀ (l : List ℚ), (insertSorted x l).length = l.length + 1 := by
  intro l
  induction l with
  | nil => rfl
  | cons y ys ih =>
    rw [insertSorted]
    by_cases h : x ≤ y
    · rw [if_pos h]
      rfl
    · rw [if_neg h, List.length_cons, ih, List.length_cons]

theorem length_sortAsc (l : List ℚ) : (sortAsc l).length = l.length := by
  induction l with
  | nil => rfl
  | cons x xs ih =>
    show (insertSorted x (sortAsc xs)).length = xs.length + 1
    rw [length_insertSorted, ih]

theorem median_none_iff (l : List JsNum) :
    median l = none ↔ l.filterMap finVal? = [] := by
  constructor
  · intro h
    cases hs : sortAsc (l.filterMap finVal?) with
    | nil =>
      have hlen := length_sortAsc (l.filterMap finVal?)
      rw [hs] at hlen
      exact List.length_eq_zero.mp hlen.symm
    | cons q qs =>
      exfalso
      simp only [median, hs] at h
      split_ifs at h
  · intro h
    simp [median, h, sortAsc]

theorem filterMap_all_length (l : List JsNum)
    (h : ∀ x ∈ l, (finVal? x).isSome = true) :
    (l.filterMap finVal?).length = l.length := by
  induction l with
  | nil => rfl
  | cons x xs ih =>
    have hx := h x (List.mem_cons_self x xs)
    cases hfx : finVal? x with
    | none =>
      rw [hfx] at hx
      exact absurd hx (by simp)
    | some q =>
      rw [List.filterMap_cons, hfx]
      simp only [List.length_cons]
      rw [ih (fun y hy => h y (List.mem_cons_of_mem x hy))]

/-- C6: in the written prices.json, for every (cardId, bucket) entry the
sample count n is zero exactly when the median is null, and n equals the
number of retained Sales with that cardId and bucket (the hypothesis that
every retained price is a finite number holds for everything the pipeline
writes, since parseEurPrice only produces finite values).  The median
itself is, by definition of `median`, computed by filtering non-finite
values, sorting ascending and taking the middle element or the mean of
the two middle elements, with empty groups producing a null median and
count 0. -/
theorem c6_aggregate_n_median :
    ∀ (kept : List Sale) (cid bname : String) (m : Option ℚ) (n : ℕ),
      (∀ s ∈ kept, (finVal? s.price_eur).isSome = true) →
      priceEntry kept cid bname = some (m, n) →
      (n = 0 ↔ m = none) ∧
      n = (kept.filter (fun s => s.cardId == cid && s.bucket == bname)).length := by
  intro kept cid bname m n hfin hpe
  simp only [priceEntry, aggregatePrices] at hpe
  rw [findA_map] at hpe
  cases hf : findA (buildByCard kept) cid with
  | none =>
    rw [hf] at hpe
    exact Option.noConfusion (hpe : (none : Option (Option ℚ × ℕ)) = some (m, n))
  | some b =>
    rw [hf] at hpe
    have hpe2 : findA (aggregateEntries b) bname = some (m, n) := hpe
    obtain ⟨hbn, hx⟩ := findA_aggregateEntries b bname (m, n) hpe2
    have hbb := buildByCard_field kept [] cid bname hbn
    rw [show List.foldl stepByCard [] kept = buildByCard kept from rfl, hf] at hbb
    have harr : (getBucketArr b bname).getD [] =
        (kept.filter (fun s => s.cardId == cid && s.bucket == bname)).map
          Sale.price_eur := by
      simpa [bucketsField, findA] using hbb
    have hm : m = median ((getBucketArr b bname).getD []) := congrArg Prod.fst hx
    have hn : n = ((getBucketArr b bname).getD []).length := congrArg Prod.snd hx
    constructor
    · rw [hm, hn, harr]
      constructor
      · intro h0
        have hnil := List.eq_nil_of_length_eq_zero h0
        rw [hnil]
        rfl
      · intro h0
        have hfm := (median_none_iff _).mp h0
        have hall : ∀ x ∈ (kept.filter
            (fun s => s.cardId == cid && s.bucket == bname)).map Sale.price_eur,
            (finVal? x).isSome = true := by
          intro x hxm
          obtain ⟨s0, hs0, rfl⟩ := List.mem_map.mp hxm
          exact hfin s0 (List.mem_of_mem_filter hs0)
        have hlen := filterMap_all_length _ hall
        rw [hfm] at hlen
        exact hlen.symm
    · rw [hn, harr, List.length_map]

/-- C6 witness: one retained raw sale at 5 EUR yields the entry
(median 5, n 1), with both conclusions holding. -/
theorem c6_aggregate_witness :
    priceEntry [ghostSale] "gone-001-mew-en" "raw" = some (some 5, 1) ∧
    ((1 = 0 ↔ (some (5 : ℚ) : Option ℚ) = none) ∧
     1 = ([ghostSale].filter
       (fun s => s.cardId == "gone-001-mew-en" && s.bucket == "raw")).length) := by
  refine ⟨by decide, ?_⟩
  exact c6_aggregate_n_median [ghostSale] "gone-001-mew-en" "raw" (some 5) 1
    (by decide) (by decide)
